import Mathlib

/-!
# LinearAccelStepperActuator

A shallow embedding of `LinearAccelStepperActuator.cpp`, the closed-loop driver of a
stepper-motor linear actuator with a home switch and a stall-detecting encoder, and
theorems about it.

Conventions of the embedding.

* The object is a record `Actuator`; every member function is a function from the record
  to the record, statements in source order.
* The step generator (`AccelStepper`), the clock (`millis()`) and the digital input
  (`digitalRead`) are collaborators outside the source.  The step generator is a
  parameter `StepGen G` over an arbitrary state type `G`; a clock reading and a pin level
  are arguments of the operations that read them.
* `float` values are exact rationals; a conversion from `float` to an integer type
  truncates toward zero.
* `unsigned long` values are naturals and arithmetic on them is reduced modulo `2 ^ 32`.
* `int` and `long` values are integers.
* The record carries a ghost `trace` of the calls issued to the step generator, each with
  the two encoder counters as they were when the call was issued.
-/

namespace LinearAccelStepperActuator

/-! ## Collaborators -/

/-- Calls the actuator issues on its step generator (`stepper->...`). -/
inductive StepperCall where
  | setSpeed (stepsPerSecond : ℚ)
  | setMaxSpeed (stepsPerSecond : ℚ)
  | setAcceleration (stepsPerSecondPerSecond : ℚ)
  | move (relativeSteps : ℤ)
  | moveTo (absoluteSteps : ℤ)
  | stop
  | run
  | runSpeedToPosition
  | setCurrentPosition (position : ℤ)
  | enableOutputs
  | disableOutputs
  | setEnablePin (pin : ℤ)
  | setPinsInverted (directionInvert stepInvert enableInvert : Bool)
  deriving DecidableEq, Repr

/-- Modelled from the spec: the step generator (`AccelStepper`) is an external
collaborator whose code is not part of the source.  It is taken as a parameter: any state
type `G`, any effect `exec` of a call on that state, and any queries. -/
structure StepGen (G : Type) where
  exec : StepperCall → G → G
  distanceToGo : G → ℤ
  targetPosition : G → ℤ
  currentPosition : G → ℤ
  speed : G → ℚ
  maxSpeed : G → ℚ
  acceleration : G → ℚ

/-- Ghost record of one call issued to the step generator, with the values `*encoderCount`
and `reqEncoderCount` had when it was issued. -/
structure Issued where
  call : StepperCall
  encoderCount : ℤ
  reqEncoderCount : ℤ
  deriving DecidableEq, Repr

/-! ## Machine arithmetic -/

/-- Modelled from the spec: the header declaring the members is not part of the source;
the spec gives the time members as unsigned milliseconds, the type of `millis()`, an
`unsigned long` of 32 bits. -/
def ULONG_MOD : ℕ := 4294967296

/-- Subtraction of `unsigned long` values, modulo `2 ^ 32`. -/
def ulongSub (x y : ℕ) : ℕ := (x + (ULONG_MOD - y % ULONG_MOD)) % ULONG_MOD

/-- Conversion of a `float` to an integer: the fractional part is discarded. -/
def truncate (x : ℚ) : ℤ := if 0 ≤ x then ⌊x⌋ else ⌈x⌉

/-- Conversion of a `float` to `unsigned long`.  C++ defines it only when the truncated
value lies in `[0, 2 ^ 32)`; outside, the embedding takes the natural part reduced modulo
`2 ^ 32`. -/
def floatToULong (x : ℚ) : ℕ := (truncate x).toNat % ULONG_MOD

/-! ## The actuator -/

/-- Members of `LinearAccelStepperActuator`.  `encoderCount` is the content of the cell
`*encoderCount`, which is shared with the encoder interrupt. -/
structure Actuator (G : Type) where
  stepper : G
  encoderCount : ℤ
  homing : Bool
  moving : Bool
  accelerating : Bool
  accelerationEnabled : Bool
  revertSwitchEnabled : Bool
  homeSwitchPin : ℤ
  enablePin : ℤ
  lastSetSpeed : ℚ
  lastSetAcceleration : ℚ
  accInterval : ℚ
  timeInterval : ℕ
  lastTime : ℕ
  chkTime : ℕ
  motionStart : ℕ
  reqEncoderCount : ℤ
  stepsPerRev : ℤ
  numGaps : ℤ
  trace : List Issued

variable {G : Type}

/-- A call `stepper->c(...)`: the step generator takes the call, the ghost trace records
it. -/
def issue (S : StepGen G) (c : StepperCall) (a : Actuator G) : Actuator G :=
  { a with
    stepper := S.exec c a.stepper
    trace := a.trace ++ [⟨c, a.encoderCount, a.reqEncoderCount⟩] }

/-- The calls issued so far, oldest first. -/
def calls (a : Actuator G) : List StepperCall := a.trace.map Issued.call

/-- Source function `calculateInterval(int newSpeed)`.  When `gapPerSec` is `0` the
`float` quotient is infinite and its conversion undefined; the rational quotient is `0`
there. -/
def calculateInterval (newSpeed : ℤ) (a : Actuator G) : Actuator G :=
  let gapPerSec : ℚ := ((newSpeed : ℚ) / (a.stepsPerRev : ℚ)) * (a.numGaps : ℚ)
  let a := { a with timeInterval := floatToULong ((1 / gapPerSec) * 1000) }
  { a with timeInterval := (a.timeInterval + 200) % ULONG_MOD }

/-- Source function `setSpeed(float stepsPerSecond)`. -/
def setSpeed (S : StepGen G) (stepsPerSecond : ℚ) (a : Actuator G) : Actuator G :=
  let a := { a with lastSetSpeed := stepsPerSecond }
  let a := calculateInterval (truncate a.lastSetSpeed) a
  issue S (.setSpeed a.lastSetSpeed) a

/-- Source function `setMaxSpeed(float stepsPerSecond)`. -/
def setMaxSpeed (S : StepGen G) (stepsPerSecond : ℚ) (a : Actuator G) : Actuator G :=
  issue S (.setMaxSpeed stepsPerSecond) a

/-- Source function `setAcceleration(float stepsPerSecondPerSecond)`. -/
def setAcceleration (S : StepGen G) (stepsPerSecondPerSecond : ℚ) (a : Actuator G) :
    Actuator G :=
  let a := issue S (.setAcceleration stepsPerSecondPerSecond) a
  { a with lastSetAcceleration := stepsPerSecondPerSecond }

/-- Source function `enableAcceleration()`. -/
def enableAcceleration (a : Actuator G) : Actuator G :=
  { a with accelerationEnabled := true }

/-- Source function `disableAcceleration()`. -/
def disableAcceleration (a : Actuator G) : Actuator G :=
  { a with accelerationEnabled := false }

/-- Source function `enableRevertedSwitch()`. -/
def enableRevertedSwitch (a : Actuator G) : Actuator G :=
  { a with revertSwitchEnabled := true }

/-- Source function `disableRevertedSwitch()`. -/
def disableRevertedSwitch (a : Actuator G) : Actuator G :=
  { a with revertSwitchEnabled := false }

/-- Source function `distanceToGo()`. -/
def distanceToGo (S : StepGen G) (a : Actuator G) : ℤ := S.distanceToGo a.stepper

/-- Source function `targetPosition()`. -/
def targetPosition (S : StepGen G) (a : Actuator G) : ℤ := S.targetPosition a.stepper

/-- Source function `currentPosition()`. -/
def currentPosition (S : StepGen G) (a : Actuator G) : ℤ := S.currentPosition a.stepper

/-- Source function `setCurrentPosition(long position)`. -/
def setCurrentPosition (S : StepGen G) (position : ℤ) (a : Actuator G) : Actuator G :=
  issue S (.setCurrentPosition position) a

/-- Source function `speed()`. -/
def speed (S : StepGen G) (a : Actuator G) : ℚ := S.speed a.stepper

/-- Source function `maxSpeed()`. -/
def maxSpeed (S : StepGen G) (a : Actuator G) : ℚ := S.maxSpeed a.stepper

/-- Source function `acceleration()`. -/
def acceleration (S : StepGen G) (a : Actuator G) : ℚ := S.acceleration a.stepper

/-- Source function `isMoving()`. -/
def isMoving (a : Actuator G) : Bool := a.moving

/-- Source function `init()`: `pinMode(homeSwitchPin, INPUT)` touches no member. -/
def init (a : Actuator G) : Actuator G := a

/-- The constructor taking a step generator, two pins and the encoder cell.  `raw` holds
whatever the members the constructor does not assign contain. -/
def construct (S : StepGen G) (raw : Actuator G) (mystepper : G)
    (myHomeSwitchPin myEnablePin : ℤ) (myEncoderCount : ℤ) : Actuator G :=
  let a := { raw with encoderCount := myEncoderCount }
  let a := { a with homing := false }
  let a := { a with moving := false }
  let a := { a with stepper := mystepper }
  let speed : ℤ := 5000
  let a := setSpeed S speed a
  let a := setMaxSpeed S speed a
  let a := setAcceleration S 2000 a
  let a := disableAcceleration a
  let a := calculateInterval speed a
  let a := { a with homeSwitchPin := myHomeSwitchPin }
  let a := issue S (.setEnablePin myEnablePin) a
  let a := { a with enablePin := myEnablePin }
  let a := enableRevertedSwitch a
  let a := issue S (.setPinsInverted false false true) a
  issue S .disableOutputs a

/-- Source function `homeSwitchState()`; `pinLevel` is what `digitalRead(homeSwitchPin)`
returns.  The result is the returned value together with the object after the call. -/
def homeSwitchState (pinLevel : Bool) (a : Actuator G) : Bool × Actuator G :=
  let switchState := pinLevel
  let switchState := if a.revertSwitchEnabled then !switchState else switchState
  (switchState, a)

/-- Source function `stop()`. -/
def stop (S : StepGen G) (a : Actuator G) : Actuator G :=
  let a := { a with homing := false }
  let a := issue S .stop a
  if !a.accelerationEnabled || a.homing then issue S (.move 0) a else a

/-- Source function `checkEncoder()`.  The function is declared `bool` and has no
`return`; its callers discard the value, and the embedding returns the object only. -/
def checkEncoder (S : StepGen G) (a : Actuator G) : Actuator G :=
  let a :=
    if ulongSub a.chkTime a.lastTime > a.timeInterval then
      let a := { a with lastTime := a.chkTime }
      let a := { a with reqEncoderCount := a.reqEncoderCount + 1 }
      if a.encoderCount - a.reqEncoderCount < -3 then stop S a else a
    else a
  if a.accelerationEnabled && a.accelerating then
    let timePassed : ℕ := ulongSub a.chkTime a.motionStart
    if timePassed > 250 then
      if (timePassed : ℚ) < a.accInterval then
        let newSpeed : ℚ := ((timePassed : ℚ) / a.accInterval) * a.lastSetSpeed
        calculateInterval (truncate newSpeed) a
      else
        let a := { a with accelerating := false }
        calculateInterval (truncate a.lastSetSpeed) a
    else a
  else a

/-- Source function `startMove()`. -/
def startMove (a : Actuator G) : Actuator G :=
  let a := { a with encoderCount := 0 }
  let a := { a with reqEncoderCount := 0 }
  if a.accelerationEnabled && !a.homing then
    let a := { a with accInterval := (a.lastSetSpeed / a.lastSetAcceleration) * 1000 }
    let newSpeed : ℚ := (1 / 2) * a.lastSetAcceleration
    let a := calculateInterval (truncate newSpeed) a
    { a with accelerating := true }
  else a

/-- Source function `move(long relativeSteps)`; `now` is what `millis()` returns. -/
def move (S : StepGen G) (now : ℕ) (relativeSteps : ℤ) (a : Actuator G) : Actuator G :=
  let a := startMove a
  let a := issue S .enableOutputs a
  let a := issue S (.move relativeSteps) a
  let a := { a with lastTime := now }
  let a := { a with motionStart := a.lastTime }
  let a := { a with moving := true }
  if !a.accelerationEnabled then setSpeed S a.lastSetSpeed a else a

/-- Source function `moveTo(long absoluteSteps)`; `now` is what `millis()` returns. -/
def moveTo (S : StepGen G) (now : ℕ) (absoluteSteps : ℤ) (a : Actuator G) : Actuator G :=
  let a := startMove a
  let a := issue S .enableOutputs a
  let a := issue S (.moveTo absoluteSteps) a
  let a := { a with lastTime := now }
  let a := { a with motionStart := a.lastTime }
  let a := { a with moving := true }
  if !a.accelerationEnabled then setSpeed S a.lastSetSpeed a else a

/-- Source function `home()`; `now` is what `millis()` returns inside `move`. -/
def home (S : StepGen G) (now : ℕ) (a : Actuator G) : Actuator G :=
  let a := { a with homing := true }
  let a := { a with moving := true }
  move S now 50000 a

/-- The advance of the normal-motion branch of `update()`, with its encoder check: the
statements of the `else` branch that precede the test of `distanceToGo()`. -/
def advance (S : StepGen G) (a : Actuator G) : Actuator G :=
  if a.accelerationEnabled = true then
    let a := issue S .run a
    if a.moving then checkEncoder S a else a
  else
    let a := issue S .runSpeedToPosition a
    if a.moving then checkEncoder S a else a

/-- Source function `update()`; `now` is what `millis()` returns and `pinLevel` what
`digitalRead` returns if the home switch is read. -/
def update (S : StepGen G) (now : ℕ) (pinLevel : Bool) (a : Actuator G) : Actuator G :=
  let a := { a with chkTime := now }
  if a.homing then
    let (switchState, a) := homeSwitchState pinLevel a
    if switchState = true then
      let a := stop S a
      setCurrentPosition S 0 a
    else
      let a := issue S .runSpeedToPosition a
      checkEncoder S a
  else
    let a := advance S a
    if distanceToGo S a = 0 then
      let a := { a with moving := false }
      issue S .disableOutputs a
    else a

/-! ## Runs -/

/-- The public operations of the actuator, with the values read from the clock and the
home switch, and a write of the encoder interrupt to the shared cell. -/
inductive Op where
  | init
  | home (now : ℕ)
  | move (now : ℕ) (relativeSteps : ℤ)
  | moveTo (now : ℕ) (absoluteSteps : ℤ)
  | stop
  | update (now : ℕ) (pinLevel : Bool)
  | setCurrentPosition (position : ℤ)
  | setSpeed (stepsPerSecond : ℚ)
  | setMaxSpeed (stepsPerSecond : ℚ)
  | setAcceleration (stepsPerSecondPerSecond : ℚ)
  | enableAcceleration
  | disableAcceleration
  | enableRevertedSwitch
  | disableRevertedSwitch
  | encoderWrite (count : ℤ)

/-- One operation applied to the actuator. -/
def applyOp (S : StepGen G) (op : Op) (a : Actuator G) : Actuator G :=
  match op with
  | .init => init a
  | .home now => home S now a
  | .move now relativeSteps => move S now relativeSteps a
  | .moveTo now absoluteSteps => moveTo S now absoluteSteps a
  | .stop => stop S a
  | .update now pinLevel => update S now pinLevel a
  | .setCurrentPosition position => setCurrentPosition S position a
  | .setSpeed stepsPerSecond => setSpeed S stepsPerSecond a
  | .setMaxSpeed stepsPerSecond => setMaxSpeed S stepsPerSecond a
  | .setAcceleration stepsPerSecondPerSecond => setAcceleration S stepsPerSecondPerSecond a
  | .enableAcceleration => enableAcceleration a
  | .disableAcceleration => disableAcceleration a
  | .enableRevertedSwitch => enableRevertedSwitch a
  | .disableRevertedSwitch => disableRevertedSwitch a
  | .encoderWrite count => { a with encoderCount := count }

/-- A sequence of operations applied in order. -/
def runOps (S : StepGen G) (ops : List Op) (a : Actuator G) : Actuator G :=
  ops.foldl (fun s op => applyOp S op s) a

/-- The object after `k` calls of `update()`, one on every millisecond tick after the
clock value `start`: the `i`-th call reads the clock at `start + i`, modulo `2 ^ 32`. -/
def ticks (S : StepGen G) (start : ℕ) (pinLevel : Bool) : ℕ → Actuator G → Actuator G
  | 0, a => a
  | k + 1, a =>
    update S ((start + (k + 1)) % ULONG_MOD) pinLevel (ticks S start pinLevel k a)

/-! ## A reference step generator -/

/-- State of the reference step generator. -/
structure RefStepper where
  currentPos : ℤ
  targetPos : ℤ
  speed : ℚ
  maxSpeed : ℚ
  acceleration : ℚ
  outputsEnabled : Bool
  deriving DecidableEq, Repr

/-- Modelled from the spec: a reference step generator for concrete runs.  A relative
move targets the current position plus the steps, an absolute move targets the position,
setting the current position makes it the target too, a stop targets the current
position, and every advance makes one step toward the target. -/
def refExec : StepperCall → RefStepper → RefStepper
  | .setSpeed v, g => { g with speed := v }
  | .setMaxSpeed v, g => { g with maxSpeed := v }
  | .setAcceleration v, g => { g with acceleration := v }
  | .move relativeSteps, g => { g with targetPos := g.currentPos + relativeSteps }
  | .moveTo absoluteSteps, g => { g with targetPos := absoluteSteps }
  | .stop, g => { g with targetPos := g.currentPos }
  | .run, g =>
    if g.currentPos < g.targetPos then { g with currentPos := g.currentPos + 1 }
    else if g.targetPos < g.currentPos then { g with currentPos := g.currentPos - 1 }
    else g
  | .runSpeedToPosition, g =>
    if g.currentPos < g.targetPos then { g with currentPos := g.currentPos + 1 }
    else if g.targetPos < g.currentPos then { g with currentPos := g.currentPos - 1 }
    else g
  | .setCurrentPosition position, g =>
    { g with currentPos := position, targetPos := position, speed := 0 }
  | .enableOutputs, g => { g with outputsEnabled := true }
  | .disableOutputs, g => { g with outputsEnabled := false }
  | .setEnablePin _, g => g
  | .setPinsInverted _ _ _, g => g

/-- The reference step generator. -/
def refStepGen : StepGen RefStepper where
  exec := refExec
  distanceToGo g := g.targetPos - g.currentPos
  targetPosition g := g.targetPos
  currentPosition g := g.currentPos
  speed g := g.speed
  maxSpeed g := g.maxSpeed
  acceleration g := g.acceleration

/-- A reference step generator at rest at position `0`. -/
def refRest : RefStepper :=
  { currentPos := 0, targetPos := 0, speed := 0, maxSpeed := 0, acceleration := 0,
    outputsEnabled := false }

/-- An actuator record whose members are all zero or false, over the reference step
generator, with `stepsPerRev` and `numGaps` as given. -/
def blank (stepsPerRev numGaps : ℤ) : Actuator RefStepper :=
  { stepper := refRest, encoderCount := 0, homing := false, moving := false,
    accelerating := false, accelerationEnabled := false, revertSwitchEnabled := false,
    homeSwitchPin := 0, enablePin := 0, lastSetSpeed := 0, lastSetAcceleration := 0,
    accInterval := 0, timeInterval := 0, lastTime := 0, chkTime := 0, motionStart := 0,
    reqEncoderCount := 0, stepsPerRev := stepsPerRev, numGaps := numGaps, trace := [] }

/-! ## Invariants and concrete states -/

/-- The invariant that an actuator seeking home is moving. -/
def HomingImpliesMoving (a : Actuator G) : Prop := a.homing = true → a.moving = true

instance (a : Actuator G) : Decidable (HomingImpliesMoving a) :=
  inferInstanceAs (Decidable (a.homing = true → a.moving = true))

/-- The reference actuator as constructed, with 3200 steps per revolution and 4 encoder
gaps. -/
def fresh : Actuator RefStepper :=
  construct refStepGen (blank 3200 4) refRest 3 4 0

/-- The reference actuator after `home()` at clock value `0`. -/
def homingStart : Actuator RefStepper :=
  home refStepGen 0 fresh

/-- The state of a constant-speed motion `k` ticks after it started from `a0` at clock
value `t0` with interval `T`, while the encoder counter stays at `0` and no stop has been
forced: the step generator has advanced `k` times and nothing else, and the expected
count `q` was last incremented at tick `L = q * (T + 1)`. -/
structure Tracking (S : StepGen G) (a0 : Actuator G) (t0 T k : ℕ) (s : Actuator G) :
    Prop where
  homing : s.homing = false
  accel : s.accelerationEnabled = false
  moving : s.moving = true
  encoder : s.encoderCount = 0
  interval : s.timeInterval = T
  stepper : s.stepper = (S.exec .runSpeedToPosition)^[k] a0.stepper
  issued : calls s = calls a0 ++ List.replicate k StepperCall.runSpeedToPosition
  count : ∃ q L : ℕ, s.reqEncoderCount = (q : ℤ) ∧ q ≤ 3 ∧ L = q * (T + 1) ∧ L ≤ k
    ∧ k ≤ L + T ∧ s.lastTime % ULONG_MOD = (t0 + L) % ULONG_MOD

/-- The reference actuator after `move(100000)` at clock value `0`. -/
def longMove : Actuator RefStepper :=
  move refStepGen 0 100000 fresh

/-- The invariant that the ramp flag is set only in acceleration mode. -/
def AcceleratingImpliesEnabled (a : Actuator G) : Prop :=
  a.accelerating = true → a.accelerationEnabled = true

instance (a : Actuator G) : Decidable (AcceleratingImpliesEnabled a) :=
  inferInstanceAs (Decidable (a.accelerating = true → a.accelerationEnabled = true))

/-- A sequence of calls of `update()`, each with the clock value and the pin level it
reads. -/
def updates (S : StepGen G) (inputs : List (ℕ × Bool)) (a : Actuator G) : Actuator G :=
  inputs.foldl (fun s i => update S i.1 i.2 s) a

/-- The reference actuator, in acceleration mode, after `move(100)` at clock value `0`:
a ramped motion under way. -/
def rampStart : Actuator RefStepper :=
  move refStepGen 0 100 (enableAcceleration fresh)

/-- The reference actuator 50000 ticks after `home()` at clock value `0`, the switch never
active: the step generator has made the 50000 steps of the homing move and has no
distance to go, and the encoder counter has kept up with the 138 intervals of 360 ms
counted, the last at clock value `49818`. -/
def homingDone : Actuator RefStepper :=
  { homingStart with
    stepper := { homingStart.stepper with currentPos := 50000 }
    encoderCount := 138
    reqEncoderCount := 138
    timeInterval := 360
    lastTime := 49818
    chkTime := 50000 }

/-- The reference actuator after `home()` at clock value `0`, with its interval of 360 ms,
after three intervals counted, the last at clock value `1083`, and an encoder counter
still at `0`. -/
def homingStalled : Actuator RefStepper :=
  { homingStart with reqEncoderCount := 3, timeInterval := 360, lastTime := 1083,
                     chkTime := 1443 }

/-- The reference actuator in its long constant-speed move, with its interval of 360 ms,
after three intervals counted, the last at clock value `1083`, and an encoder counter
still at `0`. -/
def movingStalled : Actuator RefStepper :=
  { longMove with reqEncoderCount := 3, timeInterval := 360, lastTime := 1083,
                  chkTime := 1443 }

/-! ## Theorems -/

/-! ### Effect of the operations on `homing` and `moving` -/

theorem stop_homing (S : StepGen G) (a : Actuator G) : (stop S a).homing = false := by
  simp only [stop, issue]; split_ifs <;> rfl

theorem stop_moving (S : StepGen G) (a : Actuator G) : (stop S a).moving = a.moving := by
  simp only [stop, issue]; split_ifs <;> rfl

theorem calculateInterval_homing (v : ℤ) (a : Actuator G) :
    (calculateInterval v a).homing = a.homing := rfl

theorem calculateInterval_moving (v : ℤ) (a : Actuator G) :
    (calculateInterval v a).moving = a.moving := rfl

theorem checkEncoder_moving (S : StepGen G) (a : Actuator G) :
    (checkEncoder S a).moving = a.moving := by
  simp only [checkEncoder]
  split_ifs <;> simp [calculateInterval_moving, stop_moving]

theorem checkEncoder_homing (S : StepGen G) (a : Actuator G)
    (h : (checkEncoder S a).homing = true) : a.homing = true := by
  simp only [checkEncoder] at h
  split_ifs at h <;> simp_all [calculateInterval_homing, stop_homing]

theorem setSpeed_homing (S : StepGen G) (v : ℚ) (a : Actuator G) :
    (setSpeed S v a).homing = a.homing := rfl

theorem setSpeed_moving (S : StepGen G) (v : ℚ) (a : Actuator G) :
    (setSpeed S v a).moving = a.moving := rfl

theorem startMove_homing (a : Actuator G) : (startMove a).homing = a.homing := by
  simp only [startMove]; split_ifs <;> rfl

theorem move_moving (S : StepGen G) (now : ℕ) (n : ℤ) (a : Actuator G) :
    (move S now n a).moving = true := by
  simp only [move]; split_ifs <;> rfl

theorem moveTo_moving (S : StepGen G) (now : ℕ) (p : ℤ) (a : Actuator G) :
    (moveTo S now p a).moving = true := by
  simp only [moveTo]; split_ifs <;> rfl

theorem advance_moving (S : StepGen G) (a : Actuator G) :
    (advance S a).moving = a.moving := by
  simp only [advance]
  split_ifs <;> simp [checkEncoder_moving, issue]

theorem advance_homing (S : StepGen G) (a : Actuator G)
    (h : (advance S a).homing = true) : a.homing = true := by
  simp only [advance] at h
  split_ifs at h
  · have h2 := checkEncoder_homing S _ h; exact h2
  · exact h
  · have h2 := checkEncoder_homing S _ h; exact h2
  · exact h

/-! ### The branches of `update()` -/

theorem update_of_switch_active (S : StepGen G) (now : ℕ) (pinLevel : Bool) (a : Actuator G)
    (hhoming : a.homing = true) (hswitch : (homeSwitchState pinLevel a).1 = true) :
    update S now pinLevel a = setCurrentPosition S 0 (stop S { a with chkTime := now }) := by
  simp only [homeSwitchState] at hswitch
  simp only [update, homeSwitchState, hhoming, if_true]
  rw [if_pos hswitch]

theorem update_of_switch_inactive (S : StepGen G) (now : ℕ) (pinLevel : Bool)
    (a : Actuator G) (hhoming : a.homing = true)
    (hswitch : (homeSwitchState pinLevel a).1 = false) :
    update S now pinLevel a
      = checkEncoder S (issue S .runSpeedToPosition { a with chkTime := now }) := by
  simp only [homeSwitchState] at hswitch
  simp only [update, homeSwitchState, hhoming, if_true]
  rw [if_neg (by simp [hswitch])]

theorem update_of_not_homing (S : StepGen G) (now : ℕ) (pinLevel : Bool) (a : Actuator G)
    (hhoming : a.homing = false) :
    update S now pinLevel a
      = if distanceToGo S (advance S { a with chkTime := now }) = 0 then
          issue S .disableOutputs { advance S { a with chkTime := now } with moving := false }
        else advance S { a with chkTime := now } := by
  simp only [update, hhoming]
  rfl

theorem update_preserves (S : StepGen G) (now : ℕ) (pinLevel : Bool) (a : Actuator G)
    (h : HomingImpliesMoving a) : HomingImpliesMoving (update S now pinLevel a) := by
  intro hh
  cases ha : a.homing with
  | true =>
    cases hs : (homeSwitchState pinLevel a).1 with
    | true =>
      rw [update_of_switch_active S now pinLevel a ha hs] at hh
      have h2 : (stop S { a with chkTime := now }).homing = true := hh
      rw [stop_homing] at h2
      exact absurd h2 (by decide)
    | false =>
      rw [update_of_switch_inactive S now pinLevel a ha hs, checkEncoder_moving]
      exact h ha
  | false =>
    rw [update_of_not_homing S now pinLevel a ha] at hh
    split_ifs at hh
    · have h2 : (advance S { a with chkTime := now }).homing = true := hh
      have h3 := advance_homing S _ h2
      have h4 : a.homing = true := h3
      rw [ha] at h4
      exact absurd h4 (by decide)
    · have h3 := advance_homing S _ hh
      have h4 : a.homing = true := h3
      rw [ha] at h4
      exact absurd h4 (by decide)

/-! ### C4: homing implies moving -/

/-- C4: the predicate "homing implies moving" holds after construction, is preserved by
every public operation and by every write of the encoder interrupt, whatever the step
generator does and whatever the clock and the switch read, and so holds after every
sequence of operations on a constructed actuator. -/
theorem homing_implies_moving (S : StepGen G) :
    (∀ raw g pin1 pin2 enc, HomingImpliesMoving (construct S raw g pin1 pin2 enc))
    ∧ (∀ op a, HomingImpliesMoving a → HomingImpliesMoving (applyOp S op a))
    ∧ (∀ raw g pin1 pin2 enc ops,
        HomingImpliesMoving (runOps S ops (construct S raw g pin1 pin2 enc))) := by
  have hc : ∀ raw g pin1 pin2 enc, HomingImpliesMoving (construct S raw g pin1 pin2 enc) := by
    intro raw g pin1 pin2 enc
    simp [HomingImpliesMoving, construct, issue, enableRevertedSwitch, calculateInterval,
      disableAcceleration, setAcceleration, setMaxSpeed, setSpeed]
  have hp : ∀ op a, HomingImpliesMoving a → HomingImpliesMoving (applyOp S op a) := by
    intro op a h
    cases op with
    | init => exact h
    | home now => intro _; exact move_moving S now 50000 _
    | move now n => intro _; exact move_moving S now n _
    | moveTo now p => intro _; exact moveTo_moving S now p _
    | stop => intro hh; simp [applyOp, stop_homing] at hh
    | update now pinLevel => exact update_preserves S now pinLevel a h
    | setCurrentPosition p => exact h
    | setSpeed v => exact h
    | setMaxSpeed v => exact h
    | setAcceleration v => exact h
    | enableAcceleration => exact h
    | disableAcceleration => exact h
    | enableRevertedSwitch => exact h
    | disableRevertedSwitch => exact h
    | encoderWrite c => exact h
  refine ⟨hc, hp, ?_⟩
  intro raw g pin1 pin2 enc ops
  have h0 := hc raw g pin1 pin2 enc
  generalize construct S raw g pin1 pin2 enc = a0 at h0
  induction ops generalizing a0 with
  | nil => exact h0
  | cons op ops ih => exact ih _ (hp op a0 h0)

/-! ### C1: the homing stop -/

/-- C1 (amended): for every state with `homing = true` in which the home switch reads
active, and every step generator whose current position is `0` after
`setCurrentPosition(0)`, one call of `update()` results in `homing = false` and
`currentPosition() == 0`; `moving` keeps the value it had before the call. -/
theorem update_homing_switch_active (S : StepGen G) (now : ℕ) (pinLevel : Bool)
    (a : Actuator G)
    (hzero : ∀ g, S.currentPosition (S.exec (.setCurrentPosition 0) g) = 0)
    (hhoming : a.homing = true) (hswitch : (homeSwitchState pinLevel a).1 = true) :
    (update S now pinLevel a).homing = false
    ∧ currentPosition S (update S now pinLevel a) = 0
    ∧ (update S now pinLevel a).moving = a.moving := by
  rw [update_of_switch_active S now pinLevel a hhoming hswitch]
  refine ⟨?_, ?_, ?_⟩
  · exact stop_homing S _
  · exact hzero _
  · exact stop_moving S _

/-- C1 (witness): the reference actuator, homing, with the switch pin low (active, the
switch being reverted). -/
theorem update_homing_switch_active_witness :
    (update refStepGen 1 false homingStart).homing = false
    ∧ currentPosition refStepGen (update refStepGen 1 false homingStart) = 0
    ∧ (update refStepGen 1 false homingStart).moving = homingStart.moving :=
  update_homing_switch_active refStepGen 1 false homingStart (fun _ => rfl) rfl rfl

/-- C1 (counterexample): the reference actuator is homing and its switch reads active,
and after one call of `update()` it is still `moving`. -/
theorem update_homing_switch_active_still_moving :
    homingStart.homing = true
    ∧ (homeSwitchState false homingStart).1 = true
    ∧ (update refStepGen 1 false homingStart).moving = true :=
  ⟨rfl, rfl, rfl⟩

/-! ### C10: the home switch -/

/-- C10: `homeSwitchState()` returns the raw pin level XOR `revertSwitchEnabled`: with the
switch reverted a raw high reads false and a raw low reads true, otherwise the raw level
is returned; the object is the same after the call. -/
theorem homeSwitchState_xor (pinLevel : Bool) (a : Actuator G) :
    (homeSwitchState pinLevel a).1 = xor pinLevel a.revertSwitchEnabled
    ∧ (homeSwitchState pinLevel a).2 = a
    ∧ (homeSwitchState true { a with revertSwitchEnabled := true }).1 = false
    ∧ (homeSwitchState false { a with revertSwitchEnabled := true }).1 = true
    ∧ (homeSwitchState pinLevel { a with revertSwitchEnabled := false }).1 = pinLevel := by
  refine ⟨?_, rfl, rfl, rfl, rfl⟩
  cases pinLevel <;> cases h : a.revertSwitchEnabled <;> simp [homeSwitchState, h]

/-! ### C3: the encoder check -/

/-- The expected count after `checkEncoder()`. -/
theorem checkEncoder_reqEncoderCount (S : StepGen G) (a : Actuator G) :
    (checkEncoder S a).reqEncoderCount
      = (if ulongSub a.chkTime a.lastTime > a.timeInterval then a.reqEncoderCount + 1
         else a.reqEncoderCount) := by
  simp only [checkEncoder, stop, issue, calculateInterval]
  split_ifs <;> simp_all

/-- The time of the last count after `checkEncoder()`. -/
theorem checkEncoder_lastTime (S : StepGen G) (a : Actuator G) :
    (checkEncoder S a).lastTime
      = (if ulongSub a.chkTime a.lastTime > a.timeInterval then a.chkTime
         else a.lastTime) := by
  simp only [checkEncoder, stop, issue, calculateInterval]
  split_ifs <;> simp_all

/-- The calls `checkEncoder()` issues: those of `stop()`, when it calls it. -/
theorem checkEncoder_calls (S : StepGen G) (a : Actuator G) :
    calls (checkEncoder S a)
      = calls a ++
        (if ulongSub a.chkTime a.lastTime > a.timeInterval
            ∧ (a.reqEncoderCount + 1) - a.encoderCount > 3 then
          StepperCall.stop :: (if a.accelerationEnabled then [] else [StepperCall.move 0])
        else []) := by
  simp only [checkEncoder, stop, issue, calculateInterval, calls]
  split_ifs <;> simp_all <;> omega

/-- C3 (amended): for every state, `checkEncoder()` increments `reqEncoderCount` by
exactly one and sets `lastTime` to `chkTime` when more than `timeInterval` milliseconds
have elapsed since `lastTime` (`chkTime - lastTime > timeInterval` in unsigned
arithmetic), and otherwise leaves both unchanged; and it calls `stop()`, whose calls on
the step generator are the only ones it issues, exactly when that increment happened and
the new `reqEncoderCount` exceeds the live encoder count by more than 3. -/
theorem checkEncoder_counts (S : StepGen G) (a : Actuator G) :
    (checkEncoder S a).reqEncoderCount
        = (if ulongSub a.chkTime a.lastTime > a.timeInterval then a.reqEncoderCount + 1
           else a.reqEncoderCount)
    ∧ (checkEncoder S a).lastTime
        = (if ulongSub a.chkTime a.lastTime > a.timeInterval then a.chkTime else a.lastTime)
    ∧ calls (checkEncoder S a)
        = calls a ++
          (if ulongSub a.chkTime a.lastTime > a.timeInterval
              ∧ (a.reqEncoderCount + 1) - a.encoderCount > 3 then
            StepperCall.stop :: (if a.accelerationEnabled then [] else [StepperCall.move 0])
          else []) :=
  ⟨checkEncoder_reqEncoderCount S a, checkEncoder_lastTime S a, checkEncoder_calls S a⟩

/-- C3 (counterexample): with `chkTime = 300`, `lastTime = 100` and `timeInterval = 200`
the elapsed time has reached `timeInterval`, and `checkEncoder()` changes neither
`reqEncoderCount` nor `lastTime`. -/
theorem checkEncoder_at_exact_interval :
    ulongSub 300 100 = 200
    ∧ (checkEncoder refStepGen
        { blank 3200 4 with chkTime := 300, lastTime := 100, timeInterval := 200 }).reqEncoderCount
        = 0
    ∧ (checkEncoder refStepGen
        { blank 3200 4 with chkTime := 300, lastTime := 100, timeInterval := 200 }).lastTime
        = 100 := by
  refine ⟨by decide, by decide, by decide⟩

/-! ### C7: a move resets the counters first -/

/-- C7: for every state and every argument, `move(n)` and `moveTo(p)` issue their calls
on the step generator (enabling the outputs, the relative or absolute command, and the
speed in constant-speed mode) with `*encoderCount` and `reqEncoderCount` both already
`0`, and both are `0` when the call returns. -/
theorem move_resets_counters (S : StepGen G) (now : ℕ) (n p : ℤ) (a : Actuator G) :
    (move S now n a).trace
        = a.trace ++ (⟨.enableOutputs, 0, 0⟩ :: ⟨.move n, 0, 0⟩ ::
            (if a.accelerationEnabled then [] else [⟨.setSpeed a.lastSetSpeed, 0, 0⟩]))
    ∧ (move S now n a).encoderCount = 0
    ∧ (move S now n a).reqEncoderCount = 0
    ∧ (moveTo S now p a).trace
        = a.trace ++ (⟨.enableOutputs, 0, 0⟩ :: ⟨.moveTo p, 0, 0⟩ ::
            (if a.accelerationEnabled then [] else [⟨.setSpeed a.lastSetSpeed, 0, 0⟩]))
    ∧ (moveTo S now p a).encoderCount = 0
    ∧ (moveTo S now p a).reqEncoderCount = 0 := by
  refine ⟨?_, ?_, ?_, ?_, ?_, ?_⟩ <;>
    simp only [move, moveTo, startMove, setSpeed, calculateInterval, issue] <;>
    split_ifs <;> simp_all

/-! ### C8: a constant-speed move restores the speed -/

/-- C8: for every state with `accelerationEnabled = false` and `lastSetSpeed = v`, as
`setSpeed(v)` leaves it, `move(n)` and `moveTo(p)` call the step generator's `setSpeed`
with `v` after the move command, as the last call, and `lastSetSpeed` is still `v`. -/
theorem move_restores_speed (S : StepGen G) (now : ℕ) (n p : ℤ) (a : Actuator G) (v : ℚ)
    (haccel : a.accelerationEnabled = false) (hspeed : a.lastSetSpeed = v) :
    calls (move S now n a) = calls a ++ [.enableOutputs, .move n, .setSpeed v]
    ∧ (move S now n a).stepper
        = S.exec (.setSpeed v) (S.exec (.move n) (S.exec .enableOutputs a.stepper))
    ∧ (move S now n a).lastSetSpeed = v
    ∧ calls (moveTo S now p a) = calls a ++ [.enableOutputs, .moveTo p, .setSpeed v]
    ∧ (moveTo S now p a).stepper
        = S.exec (.setSpeed v) (S.exec (.moveTo p) (S.exec .enableOutputs a.stepper))
    ∧ (moveTo S now p a).lastSetSpeed = v
    ∧ (setSpeed S v a).lastSetSpeed = v
    ∧ (setSpeed S v a).accelerationEnabled = false := by
  subst hspeed
  refine ⟨?_, ?_, ?_, ?_, ?_, ?_, rfl, haccel⟩ <;>
    simp [move, moveTo, startMove, setSpeed, calculateInterval, issue, calls, haccel]

/-- C8 (witness): the reference actuator as constructed, whose speed is 5000. -/
theorem move_restores_speed_witness :
    calls (move refStepGen 0 100 fresh) = calls fresh ++ [.enableOutputs, .move 100, .setSpeed 5000]
    ∧ (move refStepGen 0 100 fresh).lastSetSpeed = 5000 :=
  have h := move_restores_speed refStepGen 0 100 200 fresh 5000 rfl
    (by simp [fresh, construct, setSpeed, setMaxSpeed, setAcceleration, disableAcceleration,
          enableRevertedSwitch, calculateInterval, issue])
  ⟨h.1, h.2.2.1⟩

/-! ### C9: the end of a normal motion -/

/-- The calls `checkEncoder()` issues and the step generator it leaves. -/
theorem checkEncoder_stepper (S : StepGen G) (a : Actuator G) :
    (checkEncoder S a).stepper
      = (if ulongSub a.chkTime a.lastTime > a.timeInterval
            ∧ (a.reqEncoderCount + 1) - a.encoderCount > 3 then
          (if a.accelerationEnabled then S.exec .stop a.stepper
           else S.exec (.move 0) (S.exec .stop a.stepper))
        else a.stepper) := by
  simp only [checkEncoder, stop, issue, calculateInterval]
  split_ifs <;> simp_all <;> omega

/-- The calls the advance of `update()` issues: the advance itself, then those of a stop
forced by the encoder check. -/
theorem advance_calls (S : StepGen G) (a : Actuator G) :
    calls (advance S a)
      = calls a ++
        ((if a.accelerationEnabled then StepperCall.run else StepperCall.runSpeedToPosition) ::
          (if a.moving = true ∧ ulongSub a.chkTime a.lastTime > a.timeInterval
              ∧ (a.reqEncoderCount + 1) - a.encoderCount > 3 then
            StepperCall.stop :: (if a.accelerationEnabled then [] else [StepperCall.move 0])
          else [])) := by
  have key := fun c => checkEncoder_calls S (issue S c a)
  have hm : ∀ c, (issue S c a).moving = a.moving := fun _ => rfl
  simp only [advance, hm]
  cases hacc : a.accelerationEnabled <;> cases hmov : a.moving
  all_goals simp only [if_true, if_false, Bool.false_eq_true, key]
  all_goals simp [issue, calls, hacc, hmov]

/-- The interval `calculateInterval` stores for a positive speed, when it fits the
unsigned field: the quotient `1000 / gapPerSec` without its fraction, plus `200`. -/
theorem calculateInterval_value (s : ℤ) (a : Actuator G) (hs : 0 < s)
    (hrev : 0 < a.stepsPerRev) (hgaps : 0 < a.numGaps)
    (hfit : (1000 : ℚ) / (((s : ℚ) / (a.stepsPerRev : ℚ)) * (a.numGaps : ℚ)) + 200
      < (ULONG_MOD : ℚ)) :
    (calculateInterval s a).timeInterval
      = ⌊(1000 : ℚ) / (((s : ℚ) / (a.stepsPerRev : ℚ)) * (a.numGaps : ℚ))⌋.toNat + 200 := by
  have hs' : (0 : ℚ) < (s : ℚ) := by exact_mod_cast hs
  have hrev' : (0 : ℚ) < (a.stepsPerRev : ℚ) := by exact_mod_cast hrev
  have hgaps' : (0 : ℚ) < (a.numGaps : ℚ) := by exact_mod_cast hgaps
  have hgap : (0 : ℚ) < ((s : ℚ) / (a.stepsPerRev : ℚ)) * (a.numGaps : ℚ) :=
    mul_pos (div_pos hs' hrev') hgaps'
  set gap : ℚ := ((s : ℚ) / (a.stepsPerRev : ℚ)) * (a.numGaps : ℚ) with hgapdef
  have hx : (1 / gap) * 1000 = 1000 / gap := by field_simp
  have hpos : (0 : ℚ) ≤ 1000 / gap := by positivity
  have hfl : (0 : ℤ) ≤ ⌊(1000 : ℚ) / gap⌋ := Int.floor_nonneg.mpr hpos
  have hle : ((⌊(1000 : ℚ) / gap⌋ : ℤ) : ℚ) ≤ 1000 / gap := Int.floor_le _
  have hlt : ((⌊(1000 : ℚ) / gap⌋ : ℤ) : ℚ) + 200 < (ULONG_MOD : ℚ) := by linarith
  have hlt' : ⌊(1000 : ℚ) / gap⌋ + 200 < (ULONG_MOD : ℤ) := by exact_mod_cast hlt
  have hnat : ⌊(1000 : ℚ) / gap⌋.toNat + 200 < ULONG_MOD := by omega
  simp only [calculateInterval, floatToULong, truncate, ← hgapdef, hx, if_pos hpos]
  have hin : ⌊(1000 : ℚ) / gap⌋.toNat % ULONG_MOD = ⌊(1000 : ℚ) / gap⌋.toNat :=
    Nat.mod_eq_of_lt (by omega)
  rw [hin, Nat.mod_eq_of_lt hnat]

/-- C6 (amended): the `timeInterval` produced by `calculateInterval` does not increase
with the speed: for all speeds `0 < s1 ≤ s2`, with positive `stepsPerRev` and `numGaps`
and the interval of `s1` fitting the unsigned field, the `timeInterval` stored after
`calculateInterval(s2)` is at most the one stored after `calculateInterval(s1)`. -/
theorem calculateInterval_antitone (s1 s2 : ℤ) (a : Actuator G) (hs1 : 0 < s1)
    (hs : s1 ≤ s2) (hrev : 0 < a.stepsPerRev) (hgaps : 0 < a.numGaps)
    (hfit : (1000 : ℚ) / (((s1 : ℚ) / (a.stepsPerRev : ℚ)) * (a.numGaps : ℚ)) + 200
      < (ULONG_MOD : ℚ)) :
    (calculateInterval s2 a).timeInterval ≤ (calculateInterval s1 a).timeInterval := by
  have hs1' : (0 : ℚ) < (s1 : ℚ) := by exact_mod_cast hs1
  have hs' : (s1 : ℚ) ≤ (s2 : ℚ) := by exact_mod_cast hs
  have hrev' : (0 : ℚ) < (a.stepsPerRev : ℚ) := by exact_mod_cast hrev
  have hgaps' : (0 : ℚ) < (a.numGaps : ℚ) := by exact_mod_cast hgaps
  have hgap1 : (0 : ℚ) < ((s1 : ℚ) / (a.stepsPerRev : ℚ)) * (a.numGaps : ℚ) :=
    mul_pos (div_pos hs1' hrev') hgaps'
  have hgaple : ((s1 : ℚ) / (a.stepsPerRev : ℚ)) * (a.numGaps : ℚ)
      ≤ ((s2 : ℚ) / (a.stepsPerRev : ℚ)) * (a.numGaps : ℚ) :=
    mul_le_mul_of_nonneg_right (div_le_div_of_nonneg_right hs' hrev'.le) hgaps'.le
  have hq : (1000 : ℚ) / (((s2 : ℚ) / (a.stepsPerRev : ℚ)) * (a.numGaps : ℚ))
      ≤ 1000 / (((s1 : ℚ) / (a.stepsPerRev : ℚ)) * (a.numGaps : ℚ)) :=
    div_le_div_of_nonneg_left (by norm_num) hgap1 hgaple
  have hfit2 : (1000 : ℚ) / (((s2 : ℚ) / (a.stepsPerRev : ℚ)) * (a.numGaps : ℚ)) + 200
      < (ULONG_MOD : ℚ) := by linarith
  rw [calculateInterval_value s1 a hs1 hrev hgaps hfit,
    calculateInterval_value s2 a (lt_of_lt_of_le hs1 hs) hrev hgaps hfit2]
  have hfloor := Int.floor_le_floor hq
  have := Int.toNat_le_toNat hfloor
  omega

/-- C6 (witness): the speeds 5000 and 6000 with 3200 steps per revolution and 4 gaps. -/
theorem calculateInterval_antitone_witness :
    (calculateInterval 6000 (blank 3200 4)).timeInterval
      ≤ (calculateInterval 5000 (blank 3200 4)).timeInterval :=
  calculateInterval_antitone 5000 6000 (blank 3200 4) (by decide) (by decide) (by decide)
    (by decide) (by norm_num [blank, ULONG_MOD])

/-- C6 (counterexample): with 3200 steps per revolution and 200 gaps, the speeds 20000
and 32000 give the same `timeInterval`, 200 ms. -/
theorem calculateInterval_not_strict :
    (0 : ℤ) < 20000 ∧ (20000 : ℤ) < 32000
    ∧ (calculateInterval 20000 (blank 3200 200)).timeInterval = 200
    ∧ (calculateInterval 32000 (blank 3200 200)).timeInterval = 200 := by
  refine ⟨by decide, by decide, ?_, ?_⟩ <;>
    norm_num [calculateInterval, floatToULong, truncate, blank, ULONG_MOD]

/-! ### C2: the stall cutoff -/

/-- The advance of `update()` in a constant-speed motion under way. -/
theorem advance_constant (S : StepGen G) (a : Actuator G)
    (hacc : a.accelerationEnabled = false) (hmov : a.moving = true) :
    advance S a = checkEncoder S (issue S .runSpeedToPosition a) := by
  have hm : (issue S .runSpeedToPosition a).moving = true := hmov
  simp only [advance, hacc, Bool.false_eq_true, if_false, hm, if_true]

/-- In constant-speed mode `checkEncoder()` does nothing before the interval has
elapsed. -/
theorem checkEncoder_quiet (S : StepGen G) (a : Actuator G)
    (hacc : a.accelerationEnabled = false)
    (h : ¬ ulongSub a.chkTime a.lastTime > a.timeInterval) : checkEncoder S a = a := by
  simp only [checkEncoder, if_neg h, hacc, Bool.false_and, Bool.false_eq_true, if_false]

/-- In constant-speed mode `checkEncoder()` only counts when the interval has elapsed and
the encoder does not trail by more than 3. -/
theorem checkEncoder_count (S : StepGen G) (a : Actuator G)
    (hacc : a.accelerationEnabled = false)
    (h : ulongSub a.chkTime a.lastTime > a.timeInterval)
    (hn : ¬ a.encoderCount - (a.reqEncoderCount + 1) < -3) :
    checkEncoder S a
      = { a with lastTime := a.chkTime, reqEncoderCount := a.reqEncoderCount + 1 } := by
  simp only [checkEncoder, if_pos h, if_neg hn, hacc, Bool.false_and, Bool.false_eq_true,
    if_false]

/-- Unsigned subtraction of two clock readings taken `d` milliseconds apart. -/
theorem ulongSub_apart (t0 L d last : ℕ) (hlast : last % ULONG_MOD = (t0 + L) % ULONG_MOD)
    (hd : d < ULONG_MOD) : ulongSub ((t0 + (L + d)) % ULONG_MOD) last = d := by
  simp only [ulongSub, ULONG_MOD] at *
  omega

/-- One more tick of a tracked constant-speed motion, before the fourth increment of the
expected count and while the step generator still has distance to go. -/
theorem tracking_step (S : StepGen G) (a0 : Actuator G) (t0 T k : ℕ) (pinLevel : Bool)
    (s : Actuator G) (hT : T + 1 < ULONG_MOD) (h : Tracking S a0 t0 T k s)
    (hk : k + 1 < 4 * (T + 1))
    (hgo : S.distanceToGo ((S.exec .runSpeedToPosition)^[k + 1] a0.stepper) ≠ 0) :
    Tracking S a0 t0 T (k + 1) (update S ((t0 + (k + 1)) % ULONG_MOD) pinLevel s) := by
  obtain ⟨q, L, hq, hq3, hL, hLk, hkL, hlast⟩ := h.count
  have hsplit : k + 1 = L + (k + 1 - L) := by omega
  have helapsed : ulongSub ((t0 + (k + 1)) % ULONG_MOD) s.lastTime = k + 1 - L := by
    have := ulongSub_apart t0 L (k + 1 - L) s.lastTime hlast (by omega)
    rwa [← hsplit] at this
  have hiter : (S.exec .runSpeedToPosition)^[k + 1] a0.stepper
      = S.exec .runSpeedToPosition s.stepper := by
    rw [Function.iterate_succ_apply', h.stepper]
  have hadv := advance_constant S { s with chkTime := (t0 + (k + 1)) % ULONG_MOD }
    h.accel h.moving
  rw [update_of_not_homing S _ pinLevel s h.homing, hadv]
  generalize hb0 : issue S StepperCall.runSpeedToPosition
    { s with chkTime := (t0 + (k + 1)) % ULONG_MOD } = b0
  have e1 : b0.accelerationEnabled = false := by rw [← hb0]; exact h.accel
  have e2 : b0.homing = false := by rw [← hb0]; exact h.homing
  have e3 : b0.moving = true := by rw [← hb0]; exact h.moving
  have e4 : b0.encoderCount = 0 := by rw [← hb0]; exact h.encoder
  have e5 : b0.timeInterval = T := by rw [← hb0]; exact h.interval
  have e6 : b0.stepper = (S.exec .runSpeedToPosition)^[k + 1] a0.stepper := by
    rw [← hb0, hiter]; rfl
  have e7 : calls b0 = calls a0 ++ List.replicate (k + 1) StepperCall.runSpeedToPosition := by
    rw [← hb0, List.replicate_succ', ← List.append_assoc, ← h.issued]
    simp [calls, issue]
  have e8 : b0.reqEncoderCount = (q : ℤ) := by rw [← hb0]; exact hq
  have e9 : b0.lastTime = s.lastTime := by rw [← hb0]; rfl
  have e10 : b0.chkTime = (t0 + (k + 1)) % ULONG_MOD := by rw [← hb0]; rfl
  have hel : ulongSub b0.chkTime b0.lastTime = k + 1 - L := by rw [e9, e10, helapsed]
  by_cases hf : k + 1 - L > T
  · have hq2 : q + 1 ≤ 3 := by
      by_contra hcon
      have hq3' : q = 3 := by omega
      subst hq3'
      omega
    rw [checkEncoder_count S b0 e1 (by rw [hel, e5]; exact hf) (by rw [e4, e8]; omega)]
    rw [if_neg (by show S.distanceToGo b0.stepper ≠ 0; rw [e6]; exact hgo)]
    refine ⟨e2, e1, e3, e4, e5, e6, e7, ?_⟩
    refine ⟨q + 1, k + 1, ?_, hq2, ?_, le_refl _, by omega, ?_⟩
    · show b0.reqEncoderCount + 1 = ((q + 1 : ℕ) : ℤ)
      rw [e8]; push_cast; rfl
    · rw [Nat.succ_mul, ← hL]; omega
    · show b0.chkTime % ULONG_MOD = (t0 + (k + 1)) % ULONG_MOD
      rw [e10, Nat.mod_mod]
  · rw [checkEncoder_quiet S b0 e1 (by rw [hel, e5]; exact hf)]
    rw [if_neg (by show S.distanceToGo b0.stepper ≠ 0; rw [e6]; exact hgo)]
    refine ⟨e2, e1, e3, e4, e5, e6, e7, ?_⟩
    exact ⟨q, L, e8, hq3, hL, by omega, by omega, by rw [e9]; exact hlast⟩

/-- A tracked constant-speed motion stays tracked on every tick before the fourth
increment of the expected count, while the step generator has distance to go. -/
theorem tracking_run (S : StepGen G) (a0 : Actuator G) (t0 T : ℕ) (pinLevel : Bool)
    (hT : T + 1 < ULONG_MOD) (h0 : Tracking S a0 t0 T 0 a0)
    (hgo : ∀ j, j + 1 < 4 * (T + 1) →
      S.distanceToGo ((S.exec .runSpeedToPosition)^[j + 1] a0.stepper) ≠ 0) :
    ∀ k, k < 4 * (T + 1) → Tracking S a0 t0 T k (ticks S t0 pinLevel k a0) := by
  intro k
  induction k with
  | zero => intro _; exact h0
  | succ k ih =>
    intro hk
    exact tracking_step S a0 t0 T k pinLevel _ hT (ih (by omega)) hk (hgo k hk)

/-- The tick of a tracked constant-speed motion on which the expected count reaches 4:
`update()` issues the advance and then the stop and the zero-length move of `stop()`. -/
theorem tracking_stop (S : StepGen G) (a0 : Actuator G) (t0 T : ℕ) (pinLevel : Bool)
    (s : Actuator G) (hT : T + 1 < ULONG_MOD)
    (h : Tracking S a0 t0 T (4 * (T + 1) - 1) s) :
    ∃ rest, calls (update S ((t0 + 4 * (T + 1)) % ULONG_MOD) pinLevel s)
      = calls s ++ StepperCall.runSpeedToPosition :: StepperCall.stop ::
          StepperCall.move 0 :: rest := by
  obtain ⟨q, L, hq, hq3, hL, hLk, hkL, hlast⟩ := h.count
  have hq3' : q = 3 := by
    interval_cases q <;> omega
  subst hq3'
  have helapsed : ulongSub ((t0 + 4 * (T + 1)) % ULONG_MOD) s.lastTime = T + 1 := by
    have := ulongSub_apart t0 L (T + 1) s.lastTime hlast hT
    have h4 : L + (T + 1) = 4 * (T + 1) := by omega
    rwa [h4] at this
  rw [update_of_not_homing S _ pinLevel s h.homing]
  generalize hs1 : ({ s with chkTime := (t0 + 4 * (T + 1)) % ULONG_MOD } : Actuator G) = s1
  have f1 : s1.moving = true := by rw [← hs1]; exact h.moving
  have f2 : ulongSub s1.chkTime s1.lastTime > s1.timeInterval := by
    rw [← hs1]
    show ulongSub ((t0 + 4 * (T + 1)) % ULONG_MOD) s.lastTime > s.timeInterval
    rw [helapsed, h.interval]; omega
  have f3 : (s1.reqEncoderCount + 1) - s1.encoderCount > 3 := by
    rw [← hs1]
    show (s.reqEncoderCount + 1) - s.encoderCount > 3
    rw [hq, h.encoder]; norm_num
  have f4 : s1.accelerationEnabled = false := by rw [← hs1]; exact h.accel
  have f5 : calls s1 = calls s := by rw [← hs1]; rfl
  have hc := advance_calls S s1
  have hcond : (s1.moving = true ∧ ulongSub s1.chkTime s1.lastTime > s1.timeInterval
      ∧ (s1.reqEncoderCount + 1) - s1.encoderCount > 3) := ⟨f1, f2, f3⟩
  rw [f4, f5] at hc
  simp only [hcond, Bool.false_eq_true, if_false, if_true] at hc
  split_ifs
  · refine ⟨[StepperCall.disableOutputs], ?_⟩
    have : calls (issue S .disableOutputs { advance S s1 with moving := false })
        = calls (advance S s1) ++ [StepperCall.disableOutputs] := by simp [issue, calls]
    rw [this, hc]; simp
  · exact ⟨[], hc⟩

/-- A constant-speed move leaves the actuator tracked, at tick `0`. -/
theorem move_tracking (S : StepGen G) (t0 : ℕ) (n : ℤ) (a : Actuator G)
    (haccel : a.accelerationEnabled = false) (hhoming : a.homing = false) :
    Tracking S (move S t0 n a) t0 (move S t0 n a).timeInterval 0 (move S t0 n a) := by
  refine ⟨?_, ?_, ?_, ?_, rfl, rfl, by simp, ⟨0, 0, ?_, by omega, by omega, le_refl _,
    by omega, ?_⟩⟩ <;>
    simp [move, startMove, setSpeed, calculateInterval, issue, haccel, hhoming]

/-- The reference step generator, advanced `j` times while short of its target, has made
`j` steps. -/
theorem refExec_iterate (j : ℕ) (g : RefStepper) (h : g.currentPos + j ≤ g.targetPos) :
    (refExec .runSpeedToPosition)^[j] g = { g with currentPos := g.currentPos + j } := by
  induction j with
  | zero => simp
  | succ j ih =>
    have hj : g.currentPos + (j : ℤ) < g.targetPos := by push_cast at h; omega
    rw [Function.iterate_succ_apply', ih (by omega)]
    simp only [refExec, if_pos hj]
    push_cast
    simp [add_assoc]

/-- The interval of the reference actuator after its long move is 360 ms. -/
theorem longMove_interval : longMove.timeInterval = 360 := by
  simp only [longMove, fresh, move, startMove, setSpeed, construct, setMaxSpeed,
    setAcceleration, disableAcceleration, enableRevertedSwitch, calculateInterval, issue,
    blank, floatToULong, truncate, ULONG_MOD]
  norm_num
  rfl

/-- The reference step generator still has distance to go during the first 1444
advances of the long move. -/
theorem longMove_distance (j : ℕ) (hj : j + 1 < 4 * (longMove.timeInterval + 1)) :
    refStepGen.distanceToGo ((refStepGen.exec .runSpeedToPosition)^[j + 1] longMove.stepper)
      ≠ 0 := by
  rw [longMove_interval] at hj
  have h0 : longMove.stepper.currentPos = 0 := rfl
  have h1 : longMove.stepper.targetPos = 100000 := rfl
  have hle : longMove.stepper.currentPos + ((j + 1 : ℕ) : ℤ) ≤ longMove.stepper.targetPos := by
    rw [h0, h1]; push_cast; omega
  show refStepGen.distanceToGo ((refExec .runSpeedToPosition)^[j + 1] longMove.stepper) ≠ 0
  rw [refExec_iterate (j + 1) longMove.stepper hle]
  show longMove.stepper.targetPos - (longMove.stepper.currentPos + ((j + 1 : ℕ) : ℤ)) ≠ 0
  rw [h0, h1]; push_cast; omega

/-- C2 (amended): after `move()` starts a constant-speed motion (acceleration disabled,
not homing) at clock value `motionStart` with interval `T`, if the encoder counter stays
at `0`, `update()` is called on every millisecond tick and the step generator still has
distance to go after each advance, then the updates whose clock reading `t` satisfies
`t - motionStart ≤ 4 * T + 3` issue nothing but their advance, and the update with
`t - motionStart = 4 * T + 4` invokes `stop()`. -/
theorem stall_stop_time (S : StepGen G) (t0 : ℕ) (n : ℤ) (pinLevel : Bool) (a : Actuator G)
    (haccel : a.accelerationEnabled = false) (hhoming : a.homing = false)
    (hT : (move S t0 n a).timeInterval + 1 < ULONG_MOD)
    (hgo : ∀ j, j + 1 < 4 * ((move S t0 n a).timeInterval + 1) →
      S.distanceToGo ((S.exec .runSpeedToPosition)^[j + 1] (move S t0 n a).stepper) ≠ 0) :
    (move S t0 n a).motionStart = t0
    ∧ (∀ k, k ≤ 4 * (move S t0 n a).timeInterval + 3 →
        calls (ticks S t0 pinLevel k (move S t0 n a))
          = calls (move S t0 n a) ++ List.replicate k StepperCall.runSpeedToPosition)
    ∧ ∃ rest,
        calls (ticks S t0 pinLevel (4 * (move S t0 n a).timeInterval + 4) (move S t0 n a))
          = calls (ticks S t0 pinLevel (4 * (move S t0 n a).timeInterval + 3) (move S t0 n a))
            ++ StepperCall.runSpeedToPosition :: StepperCall.stop :: StepperCall.move 0
              :: rest := by
  have hrun := tracking_run S (move S t0 n a) t0 (move S t0 n a).timeInterval pinLevel hT
    (move_tracking S t0 n a haccel hhoming) hgo
  refine ⟨?_, ?_, ?_⟩
  · simp only [move]; split_ifs <;> rfl
  · intro k hk
    exact (hrun k (by omega)).issued
  · have hlast := hrun (4 * (move S t0 n a).timeInterval + 3) (by omega)
    have h3 : 4 * (move S t0 n a).timeInterval + 3
        = 4 * ((move S t0 n a).timeInterval + 1) - 1 := by omega
    rw [h3] at hlast
    have h4 : 4 * (move S t0 n a).timeInterval + 4
        = 4 * ((move S t0 n a).timeInterval + 1) - 1 + 1 := by omega
    have hstop := tracking_stop S (move S t0 n a) t0 (move S t0 n a).timeInterval pinLevel
      _ hT hlast
    rw [h4, h3]
    have h5 : 4 * ((move S t0 n a).timeInterval + 1) - 1 + 1
        = 4 * ((move S t0 n a).timeInterval + 1) := by omega
    simp only [ticks, h5]
    exact hstop

/-- C2 (witness): the reference actuator after `move(100000)` at clock value `0`, with
its interval of 360 ms: the update at tick 1444 invokes `stop()`. -/
theorem stall_stop_time_witness :
    ∃ rest,
      calls (ticks refStepGen 0 false (4 * longMove.timeInterval + 4) longMove)
        = calls (ticks refStepGen 0 false (4 * longMove.timeInterval + 3) longMove)
          ++ StepperCall.runSpeedToPosition :: StepperCall.stop :: StepperCall.move 0
            :: rest :=
  (stall_stop_time refStepGen 0 100000 false fresh rfl rfl
    (by
      have h : (move refStepGen 0 100000 fresh).timeInterval = 360 := longMove_interval
      rw [h]; decide)
    longMove_distance).2.2

/-- C2 (counterexample): the reference actuator after `move(100000)` at clock value `0`
has `motionStart = 0` and an interval of 360 ms, its encoder counter stays at `0`, and no
update with a clock reading up to `4 * 360` invokes `stop()`: each issues its advance
only. -/
theorem stall_stop_not_within_four_intervals :
    longMove.timeInterval = 360 ∧ longMove.motionStart = 0
    ∧ longMove.accelerationEnabled = false ∧ longMove.homing = false
    ∧ ∀ k, k ≤ 4 * 360 →
        (ticks refStepGen 0 false k longMove).encoderCount = 0
        ∧ StepperCall.stop ∉
            (calls (ticks refStepGen 0 false k longMove)).drop (calls longMove).length := by
  refine ⟨longMove_interval, rfl, rfl, rfl, ?_⟩
  intro k hk
  have hT : longMove.timeInterval + 1 < ULONG_MOD := by
    rw [longMove_interval]; decide
  have hrun := tracking_run refStepGen longMove 0 longMove.timeInterval false hT
    (move_tracking refStepGen 0 100000 fresh rfl rfl) longMove_distance k
    (by rw [longMove_interval]; omega)
  refine ⟨hrun.encoder, ?_⟩
  rw [hrun.issued, List.drop_left]
  simp

/-! ### C17: what `stop()` does -/

/-- The calls `stop()` issues. -/
theorem stop_calls (S : StepGen G) (a : Actuator G) :
    calls (stop S a)
      = calls a ++ StepperCall.stop ::
          (if a.accelerationEnabled then [] else [StepperCall.move 0]) := by
  simp only [stop, issue, calls]
  split_ifs <;> simp_all

/-- The step generator after `stop()`. -/
theorem stop_stepper (S : StepGen G) (a : Actuator G) :
    (stop S a).stepper
      = (if a.accelerationEnabled then S.exec .stop a.stepper
         else S.exec (.move 0) (S.exec .stop a.stepper)) := by
  simp only [stop, issue]
  split_ifs <;> simp_all

/-- The value of `homing` on entry does not matter to `stop()`. -/
theorem stop_forgets_homing (S : StepGen G) (a : Actuator G) (h : Bool) :
    stop S { a with homing := h } = stop S a := by
  simp only [stop, issue]

/-- C17: for every state, `stop()` ends with `homing = false`, commands the step
generator to stop, never changes `moving`, and issues the zero-length relative move, after
the stop command, if and only if `accelerationEnabled` is false, which makes the current
position the target for a step generator whose zero-length move does; the value `homing`
had on entry has no influence on the outcome. -/
theorem stop_behaviour (S : StepGen G) (a : Actuator G) :
    (stop S a).homing = false
    ∧ (stop S a).moving = a.moving
    ∧ calls (stop S a)
        = calls a ++ StepperCall.stop ::
            (if a.accelerationEnabled then [] else [StepperCall.move 0])
    ∧ (StepperCall.move 0 ∈ (calls (stop S a)).drop (calls a).length
        ↔ a.accelerationEnabled = false)
    ∧ (stop S a).stepper
        = (if a.accelerationEnabled then S.exec .stop a.stepper
           else S.exec (.move 0) (S.exec .stop a.stepper))
    ∧ ((∀ g, S.targetPosition (S.exec (.move 0) g) = S.currentPosition (S.exec (.move 0) g)) →
        a.accelerationEnabled = false →
        targetPosition S (stop S a) = currentPosition S (stop S a))
    ∧ ∀ h : Bool, stop S { a with homing := h } = stop S a := by
  refine ⟨stop_homing S a, stop_moving S a, stop_calls S a, ?_, stop_stepper S a, ?_,
    stop_forgets_homing S a⟩
  · rw [stop_calls, List.drop_left]
    cases a.accelerationEnabled <;> simp
  · intro hlaw hacc
    simp only [targetPosition, currentPosition, stop_stepper, hacc, Bool.false_eq_true,
      if_false]
    exact hlaw _

/-! ### C11: `stop()` on an idle actuator -/

/-- The members `stop()` assigns: `homing`, and the step generator through its calls. -/
theorem stop_members (S : StepGen G) (a : Actuator G) :
    stop S a
      = { a with homing := false, stepper := (stop S a).stepper, trace := (stop S a).trace } := by
  simp only [stop, issue]
  split_ifs <;> rfl

/-- C11: for every idle state (`moving = false`, `homing = false`, a step generator with
no distance to go and at rest, that is, one that a stop command and a zero-length move
leave as it is), `stop()` leaves `moving = false` and `homing = false` and changes neither
`currentPosition()` nor the distance-to-go; the members and the step generator are the
same after a second `stop()` as after the first, and the same as before. -/
theorem stop_idle (S : StepGen G) (a : Actuator G)
    (hmoving : a.moving = false) (hhoming : a.homing = false)
    (hdist : S.distanceToGo a.stepper = 0)
    (hstop : S.exec .stop a.stepper = a.stepper)
    (hmove : S.exec (.move 0) a.stepper = a.stepper) :
    (stop S a).moving = false
    ∧ (stop S a).homing = false
    ∧ currentPosition S (stop S a) = currentPosition S a
    ∧ distanceToGo S (stop S a) = 0
    ∧ { stop S (stop S a) with trace := a.trace } = { stop S a with trace := a.trace }
    ∧ { stop S a with trace := a.trace } = a := by
  have hst : (stop S a).stepper = a.stepper := by
    rw [stop_stepper]; split_ifs <;> simp [hstop, hmove]
  have hone : { stop S a with trace := a.trace } = a := by
    rw [stop_members S a]
    simp only [hst]
    cases a
    simp_all
  have hst2 : (stop S (stop S a)).stepper = a.stepper := by
    rw [stop_stepper, hst]
    have hacc : (stop S a).accelerationEnabled = a.accelerationEnabled := by
      rw [stop_members S a]
    rw [hacc]
    split_ifs <;> simp [hstop, hmove]
  refine ⟨?_, stop_homing S a, ?_, ?_, ?_, hone⟩
  · rw [stop_moving, hmoving]
  · simp only [currentPosition, hst]
  · simp only [distanceToGo, hst, hdist]
  · rw [hone, stop_members S (stop S a)]
    simp only [hst2]
    rw [stop_members S a]
    cases a
    simp_all

/-- C11 (witness): the reference actuator as constructed is idle. -/
theorem stop_idle_witness :
    (stop refStepGen fresh).moving = false
    ∧ (stop refStepGen fresh).homing = false
    ∧ currentPosition refStepGen (stop refStepGen fresh) = currentPosition refStepGen fresh
    ∧ { stop refStepGen (stop refStepGen fresh) with trace := fresh.trace }
        = { stop refStepGen fresh with trace := fresh.trace } :=
  have h := stop_idle refStepGen fresh rfl rfl rfl rfl rfl
  ⟨h.1, h.2.1, h.2.2.1, h.2.2.2.2.1⟩

/-! ### C12: the ramp flag and the acceleration mode -/

/-- The acceleration flags are the same after `stop()`. -/
theorem stop_accelerating (S : StepGen G) (a : Actuator G) :
    (stop S a).accelerating = a.accelerating
    ∧ (stop S a).accelerationEnabled = a.accelerationEnabled := by
  rw [stop_members S a]
  exact ⟨rfl, rfl⟩

/-- The encoder check never sets the ramp flag and leaves the mode. -/
theorem checkEncoder_accelerating (S : StepGen G) (a : Actuator G) :
    ((checkEncoder S a).accelerating = true → a.accelerating = true)
    ∧ (checkEncoder S a).accelerationEnabled = a.accelerationEnabled := by
  simp only [checkEncoder, stop, issue, calculateInterval]
  split_ifs <;> simp_all

/-- The prologue of a move sets the ramp flag in acceleration mode only. -/
theorem startMove_accelerating (a : Actuator G) :
    ((startMove a).accelerating = true →
        a.accelerating = true ∨ a.accelerationEnabled = true)
    ∧ (startMove a).accelerationEnabled = a.accelerationEnabled := by
  simp only [startMove, calculateInterval]
  split_ifs <;> simp_all

/-- The advance of `update()` never sets the ramp flag and leaves the mode. -/
theorem advance_accelerating (S : StepGen G) (a : Actuator G) :
    ((advance S a).accelerating = true → a.accelerating = true)
    ∧ (advance S a).accelerationEnabled = a.accelerationEnabled := by
  simp only [advance]
  split_ifs
  · exact checkEncoder_accelerating S (issue S .run a)
  · exact ⟨id, rfl⟩
  · exact checkEncoder_accelerating S (issue S .runSpeedToPosition a)
  · exact ⟨id, rfl⟩

/-- An update never sets the ramp flag and leaves the mode. -/
theorem update_accelerating (S : StepGen G) (now : ℕ) (pinLevel : Bool) (a : Actuator G) :
    ((update S now pinLevel a).accelerating = true → a.accelerating = true)
    ∧ (update S now pinLevel a).accelerationEnabled = a.accelerationEnabled := by
  cases ha : a.homing with
  | true =>
    cases hs : (homeSwitchState pinLevel a).1 with
    | true =>
      rw [update_of_switch_active S now pinLevel a ha hs]
      exact ⟨fun h => (stop_accelerating S { a with chkTime := now }).1 ▸ h,
        (stop_accelerating S { a with chkTime := now }).2⟩
    | false =>
      rw [update_of_switch_inactive S now pinLevel a ha hs]
      exact checkEncoder_accelerating S (issue S .runSpeedToPosition { a with chkTime := now })
  | false =>
    rw [update_of_not_homing S now pinLevel a ha]
    have h := advance_accelerating S { a with chkTime := now }
    split_ifs
    · exact h
    · exact h

/-- A move sets the ramp flag in acceleration mode only. -/
theorem move_accelerating (S : StepGen G) (now : ℕ) (n : ℤ) (a : Actuator G) :
    (((move S now n a).accelerating = true →
        a.accelerating = true ∨ a.accelerationEnabled = true)
      ∧ (move S now n a).accelerationEnabled = a.accelerationEnabled)
    ∧ (((moveTo S now n a).accelerating = true →
        a.accelerating = true ∨ a.accelerationEnabled = true)
      ∧ (moveTo S now n a).accelerationEnabled = a.accelerationEnabled) := by
  have h := startMove_accelerating a
  constructor <;>
  · simp only [move, moveTo, setSpeed, calculateInterval, issue]
    split_ifs <;> exact h

/-- Every operation other than `disableAcceleration()` preserves the invariant. -/
theorem applyOp_accelerating (S : StepGen G) (op : Op) (a : Actuator G)
    (hop : op ≠ Op.disableAcceleration) (h : AcceleratingImpliesEnabled a) :
    AcceleratingImpliesEnabled (applyOp S op a) := by
  cases op with
  | init => exact h
  | home now =>
    intro hh
    have hm := (move_accelerating S now 50000 { a with homing := true, moving := true }).1
    rw [show applyOp S (Op.home now) a
      = move S now 50000 { a with homing := true, moving := true } from rfl] at hh ⊢
    rw [hm.2]
    rcases hm.1 hh with h1 | h1
    · exact h h1
    · exact h1
  | move now n =>
    intro hh
    have hm := (move_accelerating S now n a).1
    rw [show applyOp S (Op.move now n) a = move S now n a from rfl] at hh ⊢
    rw [hm.2]
    rcases hm.1 hh with h1 | h1
    · exact h h1
    · exact h1
  | moveTo now p =>
    intro hh
    have hm := (move_accelerating S now p a).2
    rw [show applyOp S (Op.moveTo now p) a = moveTo S now p a from rfl] at hh ⊢
    rw [hm.2]
    rcases hm.1 hh with h1 | h1
    · exact h h1
    · exact h1
  | stop =>
    intro hh
    rw [show applyOp S Op.stop a = stop S a from rfl] at hh ⊢
    rw [(stop_accelerating S a).2]
    rw [(stop_accelerating S a).1] at hh
    exact h hh
  | update now pinLevel =>
    intro hh
    rw [show applyOp S (Op.update now pinLevel) a = update S now pinLevel a from rfl] at hh ⊢
    rw [(update_accelerating S now pinLevel a).2]
    exact h ((update_accelerating S now pinLevel a).1 hh)
  | setCurrentPosition p => exact h
  | setSpeed v => exact h
  | setMaxSpeed v => exact h
  | setAcceleration v => exact h
  | enableAcceleration => intro _; rfl
  | disableAcceleration => exact absurd rfl hop
  | enableRevertedSwitch => exact h
  | disableRevertedSwitch => exact h
  | encoderWrite c => exact h

/-- C12 (amended): the predicate "accelerating implies accelerationEnabled" is preserved
by every operation other than `disableAcceleration()` (move, moveTo, home, stop, update,
enableAcceleration, setSpeed, setAcceleration and the rest) from any state that satisfies
it, and so holds in every state reached from such a state by these operations;
`disableAcceleration()` preserves it when `accelerating` is false. -/
theorem accelerating_implies_enabled (S : StepGen G) :
    (∀ op a, op ≠ Op.disableAcceleration → AcceleratingImpliesEnabled a →
        AcceleratingImpliesEnabled (applyOp S op a))
    ∧ (∀ ops a, Op.disableAcceleration ∉ ops → AcceleratingImpliesEnabled a →
        AcceleratingImpliesEnabled (runOps S ops a))
    ∧ (∀ a : Actuator G, a.accelerating = false →
        AcceleratingImpliesEnabled (applyOp S Op.disableAcceleration a)) := by
  refine ⟨applyOp_accelerating S, ?_, ?_⟩
  · intro ops
    induction ops with
    | nil => intro a _ h; exact h
    | cons op ops ih =>
      intro a hmem h
      have h1 : op ≠ Op.disableAcceleration := fun e => hmem (e ▸ List.mem_cons_self _ _)
      have h2 : Op.disableAcceleration ∉ ops := fun e => hmem (List.mem_cons_of_mem _ e)
      exact ih (applyOp S op a) h2 (applyOp_accelerating S op a h1 h)
  · intro a ha hh
    have : a.accelerating = true := hh
    rw [ha] at this
    exact absurd this (by decide)

/-- C12 (counterexample): the reference actuator in a ramped motion satisfies the
predicate, and after `disableAcceleration()` it has `accelerating = true` with
`accelerationEnabled = false`. -/
theorem disableAcceleration_breaks_invariant :
    AcceleratingImpliesEnabled rampStart
    ∧ (applyOp refStepGen Op.disableAcceleration rampStart).accelerating = true
    ∧ (applyOp refStepGen Op.disableAcceleration rampStart).accelerationEnabled = false
    ∧ ¬ AcceleratingImpliesEnabled (applyOp refStepGen Op.disableAcceleration rampStart) := by
  refine ⟨fun _ => rfl, rfl, rfl, ?_⟩
  intro h
  exact absurd (h rfl) (by decide)

/-! ### C13 and C15: homing with the switch inactive -/

/-- The value of `homing` after the encoder check: cleared exactly when the check forces
a stop. -/
theorem checkEncoder_homing_value (S : StepGen G) (a : Actuator G) :
    (checkEncoder S a).homing
      = (if ulongSub a.chkTime a.lastTime > a.timeInterval
            ∧ (a.reqEncoderCount + 1) - a.encoderCount > 3 then false
         else a.homing) := by
  simp only [checkEncoder, stop, issue, calculateInterval]
  split_ifs <;> simp_all <;> omega

/-- The encoder check leaves the switch polarity as it is. -/
theorem checkEncoder_revertSwitchEnabled (S : StepGen G) (a : Actuator G) :
    (checkEncoder S a).revertSwitchEnabled = a.revertSwitchEnabled := by
  simp only [checkEncoder, stop, issue, calculateInterval]
  split_ifs <;> rfl

/-- An update leaves the switch polarity as it is. -/
theorem update_revertSwitchEnabled (S : StepGen G) (now : ℕ) (pinLevel : Bool)
    (a : Actuator G) :
    (update S now pinLevel a).revertSwitchEnabled = a.revertSwitchEnabled := by
  cases ha : a.homing with
  | true =>
    cases hs : (homeSwitchState pinLevel a).1 with
    | true =>
      rw [update_of_switch_active S now pinLevel a ha hs]
      show (stop S { a with chkTime := now }).revertSwitchEnabled = a.revertSwitchEnabled
      rw [stop_members S { a with chkTime := now }]
    | false =>
      rw [update_of_switch_inactive S now pinLevel a ha hs,
        checkEncoder_revertSwitchEnabled]
      rfl
  | false =>
    rw [update_of_not_homing S now pinLevel a ha]
    have h : (advance S { a with chkTime := now }).revertSwitchEnabled
        = a.revertSwitchEnabled := by
      simp only [advance]
      split_ifs
      · rw [checkEncoder_revertSwitchEnabled]; rfl
      · rfl
      · rw [checkEncoder_revertSwitchEnabled]; rfl
      · rfl
    split_ifs
    · exact h
    · exact h

/-- The calls of an update while homing with the switch inactive: the constant-speed
advance, then those of a stop forced by the encoder check. -/
theorem update_inactive_calls (S : StepGen G) (now : ℕ) (pinLevel : Bool) (a : Actuator G)
    (hhoming : a.homing = true) (hswitch : (homeSwitchState pinLevel a).1 = false) :
    calls (update S now pinLevel a)
      = calls a ++ StepperCall.runSpeedToPosition ::
          (if ulongSub now a.lastTime > a.timeInterval
              ∧ (a.reqEncoderCount + 1) - a.encoderCount > 3 then
            StepperCall.stop :: (if a.accelerationEnabled then [] else [StepperCall.move 0])
          else []) := by
  rw [update_of_switch_inactive S now pinLevel a hhoming hswitch, checkEncoder_calls]
  simp [issue, calls]

/-- The value of `homing` after an update while homing with the switch inactive. -/
theorem update_inactive_homing (S : StepGen G) (now : ℕ) (pinLevel : Bool) (a : Actuator G)
    (hhoming : a.homing = true) (hswitch : (homeSwitchState pinLevel a).1 = false) :
    (update S now pinLevel a).homing
      = (if ulongSub now a.lastTime > a.timeInterval
            ∧ (a.reqEncoderCount + 1) - a.encoderCount > 3 then false
         else true) := by
  rw [update_of_switch_inactive S now pinLevel a hhoming hswitch, checkEncoder_homing_value]
  simp [issue, hhoming]

/-- An update while homing with the switch inactive leaves `moving` as it is. -/
theorem update_inactive_moving (S : StepGen G) (now : ℕ) (pinLevel : Bool) (a : Actuator G)
    (hhoming : a.homing = true) (hswitch : (homeSwitchState pinLevel a).1 = false) :
    (update S now pinLevel a).moving = a.moving := by
  rw [update_of_switch_inactive S now pinLevel a hhoming hswitch, checkEncoder_moving]
  rfl

/-- The calls issued before an update are a beginning of the calls issued after it. -/
theorem update_calls_grow (S : StepGen G) (now : ℕ) (pinLevel : Bool) (a : Actuator G) :
    ∃ l, calls (update S now pinLevel a) = calls a ++ l := by
  cases ha : a.homing with
  | true =>
    cases hs : (homeSwitchState pinLevel a).1 with
    | true =>
      rw [update_of_switch_active S now pinLevel a ha hs]
      refine ⟨StepperCall.stop :: ((if a.accelerationEnabled then [] else [StepperCall.move 0])
        ++ [StepperCall.setCurrentPosition 0]), ?_⟩
      have h := stop_calls S { a with chkTime := now }
      have hc : calls (setCurrentPosition S 0 (stop S { a with chkTime := now }))
          = calls (stop S { a with chkTime := now }) ++ [StepperCall.setCurrentPosition 0] := by
        simp [setCurrentPosition, issue, calls]
      rw [hc, h]
      simp [calls]
    | false => exact ⟨_, update_inactive_calls S now pinLevel a ha hs⟩
  | false =>
    rw [update_of_not_homing S now pinLevel a ha]
    have h : ∃ l, calls (advance S { a with chkTime := now }) = calls a ++ l :=
      ⟨_, advance_calls S { a with chkTime := now }⟩
    obtain ⟨l, hl⟩ := h
    split_ifs with hd
    · refine ⟨l ++ [StepperCall.disableOutputs], ?_⟩
      have hc : calls (issue S .disableOutputs
          { advance S { a with chkTime := now } with moving := false })
          = calls (advance S { a with chkTime := now }) ++ [StepperCall.disableOutputs] := by
        simp [issue, calls]
      rw [hc, hl, List.append_assoc]
    · exact ⟨l, hl⟩

/-- The calls issued before a sequence of updates are a beginning of the calls issued
after it. -/
theorem updates_calls_grow (S : StepGen G) (inputs : List (ℕ × Bool)) (a : Actuator G) :
    ∃ l, calls (updates S inputs a) = calls a ++ l := by
  induction inputs generalizing a with
  | nil => exact ⟨[], by simp [updates]⟩
  | cons i rest ih =>
    obtain ⟨l1, h1⟩ := update_calls_grow S i.1 i.2 a
    obtain ⟨l2, h2⟩ := ih (update S i.1 i.2 a)
    refine ⟨l1 ++ l2, ?_⟩
    have : updates S (i :: rest) a = updates S rest (update S i.1 i.2 a) := rfl
    rw [this, h2, h1, List.append_assoc]

/-- Over updates while homing with the switch inactive, `homing` stays true unless one of
them issues a stop. -/
theorem updates_inactive_homing (S : StepGen G) (inputs : List (ℕ × Bool)) (a : Actuator G)
    (hhoming : a.homing = true)
    (hswitch : ∀ i ∈ inputs, (homeSwitchState i.2 a).1 = false) :
    ∃ l, calls (updates S inputs a) = calls a ++ l
      ∧ ((updates S inputs a).homing = true ∨ StepperCall.stop ∈ l) := by
  induction inputs generalizing a with
  | nil => exact ⟨[], by simp [updates], Or.inl hhoming⟩
  | cons i rest ih =>
    have hi : (homeSwitchState i.2 a).1 = false := hswitch i (List.mem_cons_self _ _)
    have hstep : updates S (i :: rest) a = updates S rest (update S i.1 i.2 a) := rfl
    have hh := update_inactive_homing S i.1 i.2 a hhoming hi
    obtain ⟨l1, hc, hl1⟩ : ∃ l1, calls (update S i.1 i.2 a) = calls a ++ l1
        ∧ ((ulongSub i.1 a.lastTime > a.timeInterval
              ∧ (a.reqEncoderCount + 1) - a.encoderCount > 3) → StepperCall.stop ∈ l1) :=
      ⟨_, update_inactive_calls S i.1 i.2 a hhoming hi, fun hf => by simp [hf]⟩
    by_cases hf : ulongSub i.1 a.lastTime > a.timeInterval
        ∧ (a.reqEncoderCount + 1) - a.encoderCount > 3
    · obtain ⟨l2, h2⟩ := updates_calls_grow S rest (update S i.1 i.2 a)
      refine ⟨l1 ++ l2, ?_, Or.inr (List.mem_append_left _ (hl1 hf))⟩
      rw [hstep, h2, hc, List.append_assoc]
    · rw [if_neg hf] at hh
      have hsw : ∀ j ∈ rest, (homeSwitchState j.2 (update S i.1 i.2 a)).1 = false := by
        intro j hj
        have := hswitch j (List.mem_cons_of_mem _ hj)
        simpa [homeSwitchState, update_revertSwitchEnabled] using this
      obtain ⟨l2, h2, h3⟩ := ih (update S i.1 i.2 a) hh hsw
      refine ⟨l1 ++ l2, ?_, ?_⟩
      · rw [hstep, h2, hc, List.append_assoc]
      · rcases h3 with h3 | h3
        · exact Or.inl (hstep ▸ h3)
        · exact Or.inr (List.mem_append_right _ h3)

/-- C15 (amended): for every state with `homing = true` in which the home switch reads
inactive, `update()` advances the step generator by one constant-speed tick and leaves
`homing = true` unless its encoder check forces `stop()` (more than `timeInterval`
elapsed and the incremented expected count more than 3 ahead of the encoder counter),
which clears `homing`; so over any sequence of `update()` calls during which the switch
stays inactive, `homing` stays true unless one of them issues a stop. -/
theorem update_homing_inactive (S : StepGen G) (now : ℕ) (pinLevel : Bool) (a : Actuator G)
    (hhoming : a.homing = true) (hswitch : (homeSwitchState pinLevel a).1 = false) :
    calls (update S now pinLevel a)
        = calls a ++ StepperCall.runSpeedToPosition ::
            (if ulongSub now a.lastTime > a.timeInterval
                ∧ (a.reqEncoderCount + 1) - a.encoderCount > 3 then
              StepperCall.stop :: (if a.accelerationEnabled then [] else [StepperCall.move 0])
            else [])
    ∧ ((update S now pinLevel a).homing = true
        ↔ ¬ (ulongSub now a.lastTime > a.timeInterval
              ∧ (a.reqEncoderCount + 1) - a.encoderCount > 3))
    ∧ (¬ (ulongSub now a.lastTime > a.timeInterval
              ∧ (a.reqEncoderCount + 1) - a.encoderCount > 3) →
        (update S now pinLevel a).stepper = S.exec .runSpeedToPosition a.stepper)
    ∧ ∀ inputs : List (ℕ × Bool), (∀ i ∈ inputs, (homeSwitchState i.2 a).1 = false) →
        (updates S inputs a).homing = true
        ∨ StepperCall.stop ∈ (calls (updates S inputs a)).drop (calls a).length := by
  refine ⟨update_inactive_calls S now pinLevel a hhoming hswitch, ?_, ?_, ?_⟩
  · rw [update_inactive_homing S now pinLevel a hhoming hswitch]
    split_ifs with hf
    · simp [hf]
    · simp [hf]
  · intro hf
    rw [update_of_switch_inactive S now pinLevel a hhoming hswitch, checkEncoder_stepper]
    rw [if_neg (by simpa [issue] using hf)]
    rfl
  · intro inputs hsw
    obtain ⟨l, h1, h2⟩ := updates_inactive_homing S inputs a hhoming hsw
    rw [h1, List.drop_left]
    exact h2

/-- C15 (witness): the reference actuator after `home()`, pin high (inactive, the switch
being reverted), at clock value `1`. -/
theorem update_homing_inactive_witness :
    calls (update refStepGen 1 true homingStart)
        = calls homingStart ++ StepperCall.runSpeedToPosition ::
            (if ulongSub 1 homingStart.lastTime > homingStart.timeInterval
                ∧ (homingStart.reqEncoderCount + 1) - homingStart.encoderCount > 3 then
              StepperCall.stop ::
                (if homingStart.accelerationEnabled then [] else [StepperCall.move 0])
            else []) :=
  (update_homing_inactive refStepGen 1 true homingStart rfl rfl).1

/-- C15 (counterexample): the reference actuator is homing with the switch inactive, three
intervals counted and the encoder counter at `0`; the update at clock value `1444` clears
`homing`. -/
theorem update_homing_inactive_cleared :
    homingStalled.homing = true
    ∧ (homeSwitchState true homingStalled).1 = false
    ∧ (update refStepGen 1444 true homingStalled).homing = false := by
  refine ⟨rfl, rfl, ?_⟩
  rw [update_inactive_homing refStepGen 1444 true homingStalled rfl rfl]
  decide

/-- A move leaves `homing` as it is. -/
theorem move_homing (S : StepGen G) (now : ℕ) (n : ℤ) (a : Actuator G) :
    (move S now n a).homing = a.homing := by
  simp only [move, setSpeed, calculateInterval, issue]
  split_ifs <;> exact startMove_homing a

/-- After `home()` the actuator is homing and moving. -/
theorem home_flags (S : StepGen G) (now : ℕ) (a : Actuator G) :
    (home S now a).homing = true ∧ (home S now a).moving = true :=
  ⟨move_homing S now 50000 _, move_moving S now 50000 _⟩

/-- A sequence of updates preserves "homing implies moving". -/
theorem updates_preserve (S : StepGen G) (inputs : List (ℕ × Bool)) (a : Actuator G)
    (h : HomingImpliesMoving a) : HomingImpliesMoving (updates S inputs a) := by
  induction inputs generalizing a with
  | nil => exact h
  | cons i rest ih => exact ih _ (update_preserves S i.1 i.2 a h)

/-- C13 (amended): after `home()`, if the switch reads inactive, a subsequent `update()`
leaves `moving = true`, whatever the distance-to-go of the step generator, also when it
has exhausted the 50000-step travel bound: the homing branch never tests the
distance-to-go.  `homing` stays true unless the encoder check of that update forces
`stop()`.  No sequence of `update()` calls after `home()` ends with `homing = true` and
`moving = false`. -/
theorem update_homing_keeps_moving (S : StepGen G) (now : ℕ) (pinLevel : Bool)
    (a : Actuator G) (hhoming : a.homing = true) (hmoving : a.moving = true)
    (hswitch : (homeSwitchState pinLevel a).1 = false) :
    (update S now pinLevel a).moving = true
    ∧ ((update S now pinLevel a).homing = true
        ↔ ¬ (ulongSub now a.lastTime > a.timeInterval
              ∧ (a.reqEncoderCount + 1) - a.encoderCount > 3))
    ∧ (∀ t0 (a0 : Actuator G), (home S t0 a0).homing = true ∧ (home S t0 a0).moving = true)
    ∧ ∀ t0 (a0 : Actuator G) (inputs : List (ℕ × Bool)),
        ¬ ((updates S inputs (home S t0 a0)).homing = true
            ∧ (updates S inputs (home S t0 a0)).moving = false) := by
  refine ⟨?_, ?_, fun t0 a0 => home_flags S t0 a0, ?_⟩
  · rw [update_inactive_moving S now pinLevel a hhoming hswitch, hmoving]
  · rw [update_inactive_homing S now pinLevel a hhoming hswitch]
    split_ifs with hf
    · simp [hf]
    · simp [hf]
  · intro t0 a0 inputs hcon
    have h0 : HomingImpliesMoving (home S t0 a0) := fun _ => (home_flags S t0 a0).2
    have h1 := updates_preserve S inputs _ h0 hcon.1
    rw [hcon.2] at h1
    exact absurd h1 (by decide)

/-- C13 (witness): the reference actuator after `home()` with the 50000 steps made, pin
high (inactive, the switch being reverted). -/
theorem update_homing_keeps_moving_witness :
    (update refStepGen 50001 true homingDone).moving = true :=
  (update_homing_keeps_moving refStepGen 50001 true homingDone rfl rfl rfl).1

/-- C13 (counterexample): the reference actuator after `home()` has made the 50000 steps,
its distance-to-go is `0` and its switch reads inactive; after a subsequent `update()` it
has `homing = true` and `moving = true`, not false. -/
theorem homing_bound_exhausted_still_moving :
    homingDone.homing = true
    ∧ distanceToGo refStepGen homingDone = 0
    ∧ (homeSwitchState true homingDone).1 = false
    ∧ (update refStepGen 50001 true homingDone).homing = true
    ∧ (update refStepGen 50001 true homingDone).moving = true := by
  refine ⟨rfl, by decide, rfl, ?_, ?_⟩
  · rw [update_inactive_homing refStepGen 50001 true homingDone rfl rfl]
    have h : ¬ (ulongSub 50001 homingDone.lastTime > homingDone.timeInterval
        ∧ (homingDone.reqEncoderCount + 1) - homingDone.encoderCount > 3) := by
      intro hf
      exact absurd hf.2 (by decide)
    rw [if_neg h]
  · rw [update_inactive_moving refStepGen 50001 true homingDone rfl rfl]
    rfl

/-! ### C14: what `home()` does -/

/-- The calls of `home()`, the step generator it leaves and the counters. -/
theorem home_effect (S : StepGen G) (now : ℕ) (a : Actuator G) :
    calls (home S now a)
        = calls a ++ StepperCall.enableOutputs :: StepperCall.move 50000 ::
            (if a.accelerationEnabled then [] else [StepperCall.setSpeed a.lastSetSpeed])
    ∧ (home S now a).stepper
        = (if a.accelerationEnabled then
            S.exec (.move 50000) (S.exec .enableOutputs a.stepper)
           else S.exec (.setSpeed a.lastSetSpeed)
            (S.exec (.move 50000) (S.exec .enableOutputs a.stepper)))
    ∧ (home S now a).encoderCount = 0
    ∧ (home S now a).reqEncoderCount = 0 := by
  refine ⟨?_, ?_, ?_, ?_⟩ <;>
    simp only [home, move, startMove, setSpeed, calculateInterval, issue, calls] <;>
    split_ifs <;> simp_all

/-- C14: for every state, after `home()` returns, `homing = true` and `moving = true`, the
calls issued on the step generator are the enabling of the outputs, one relative move of
50000 steps and, in constant-speed mode, the speed; the encoder counter and
`reqEncoderCount` are `0`; and for a step generator whose relative move targets the
current position plus the steps, the target is the position before the call plus
50000. -/
theorem home_behaviour (S : StepGen G) (now : ℕ) (a : Actuator G) :
    (home S now a).homing = true
    ∧ (home S now a).moving = true
    ∧ calls (home S now a)
        = calls a ++ StepperCall.enableOutputs :: StepperCall.move 50000 ::
            (if a.accelerationEnabled then [] else [StepperCall.setSpeed a.lastSetSpeed])
    ∧ ((calls (home S now a)).drop (calls a).length).filter
          (fun c => match c with
            | StepperCall.move _ => true
            | _ => false)
        = [StepperCall.move 50000]
    ∧ (home S now a).encoderCount = 0
    ∧ (home S now a).reqEncoderCount = 0
    ∧ ((∀ g r, S.targetPosition (S.exec (.move r) g) = S.currentPosition g + r) →
        (∀ g, S.currentPosition (S.exec .enableOutputs g) = S.currentPosition g) →
        (∀ g v, S.targetPosition (S.exec (.setSpeed v) g) = S.targetPosition g) →
        targetPosition S (home S now a) = currentPosition S a + 50000) := by
  obtain ⟨hc, hs, he, hr⟩ := home_effect S now a
  refine ⟨(home_flags S now a).1, (home_flags S now a).2, hc, ?_, he, hr, ?_⟩
  · rw [hc, List.drop_left]
    cases a.accelerationEnabled <;> simp
  · intro hmove henable hspeed
    simp only [targetPosition, currentPosition, hs]
    split_ifs
    · rw [hmove, henable]
    · rw [hspeed, hmove, henable]

/-- C14 (witness): the reference actuator as constructed, at position `0`: after `home()`
the target is `50000`. -/
theorem home_behaviour_witness :
    targetPosition refStepGen (home refStepGen 0 fresh)
      = currentPosition refStepGen fresh + 50000 :=
  (home_behaviour refStepGen 0 fresh).2.2.2.2.2.2 (fun _ _ => rfl) (fun _ => rfl)
    (fun _ _ => rfl)

/-! ### C16: what `setSpeed()` does -/

/-- C16: for every speed `v`, `setSpeed(v)` stores `lastSetSpeed = v`, recomputes
`timeInterval` as `calculateInterval(v)` and forwards exactly `v` to the step generator's
`setSpeed`, its only call, so that `speed()`, a pass-through, returns `v` afterwards for a
step generator that reports the speed it was set to; it changes no other member. -/
theorem setSpeed_behaviour (S : StepGen G) (v : ℚ) (a : Actuator G) :
    (setSpeed S v a).lastSetSpeed = v
    ∧ (setSpeed S v a).timeInterval = (calculateInterval (truncate v) a).timeInterval
    ∧ calls (setSpeed S v a) = calls a ++ [StepperCall.setSpeed v]
    ∧ (setSpeed S v a).stepper = S.exec (.setSpeed v) a.stepper
    ∧ speed S (setSpeed S v a) = S.speed (S.exec (.setSpeed v) a.stepper)
    ∧ ((∀ g, S.speed (S.exec (.setSpeed v) g) = v) → speed S (setSpeed S v a) = v)
    ∧ setSpeed S v a
        = { a with
            lastSetSpeed := v
            timeInterval := (calculateInterval (truncate v) a).timeInterval
            stepper := S.exec (.setSpeed v) a.stepper
            trace := a.trace ++ [⟨.setSpeed v, a.encoderCount, a.reqEncoderCount⟩] }
    ∧ (setSpeed S v a).homing = a.homing
    ∧ (setSpeed S v a).moving = a.moving
    ∧ (setSpeed S v a).accelerating = a.accelerating
    ∧ (setSpeed S v a).reqEncoderCount = a.reqEncoderCount
    ∧ (setSpeed S v a).lastSetAcceleration = a.lastSetAcceleration := by
  refine ⟨rfl, rfl, ?_, rfl, rfl, fun h => h _, rfl, rfl, rfl, rfl, rfl, rfl⟩
  simp [setSpeed, issue, calls, calculateInterval]

/-- C16 (witness): the reference step generator reports the speed it was set to. -/
theorem setSpeed_behaviour_witness :
    speed refStepGen (setSpeed refStepGen 1200 fresh) = 1200 :=
  (setSpeed_behaviour refStepGen 1200 fresh).2.2.2.2.2.1 (fun _ => rfl)

/-! ### C18: the ramp logic of the encoder check -/

/-- An update leaves `moving` false when it was false. -/
theorem update_moving_false (S : StepGen G) (now : ℕ) (pinLevel : Bool) (a : Actuator G)
    (h : a.moving = false) : (update S now pinLevel a).moving = false := by
  cases ha : a.homing with
  | true =>
    cases hs : (homeSwitchState pinLevel a).1 with
    | true =>
      rw [update_of_switch_active S now pinLevel a ha hs]
      show (stop S { a with chkTime := now }).moving = false
      rw [stop_moving]; exact h
    | false => rw [update_inactive_moving S now pinLevel a ha hs, h]
  | false =>
    rw [update_of_not_homing S now pinLevel a ha]
    split_ifs
    · rfl
    · rw [advance_moving]; exact h

/-- An update leaves `homing` false when it was false. -/
theorem update_homing_false (S : StepGen G) (now : ℕ) (pinLevel : Bool) (a : Actuator G)
    (h : a.homing = false) : (update S now pinLevel a).homing = false := by
  have hadv : (advance S { a with chkTime := now }).homing = false := by
    cases hb : (advance S { a with chkTime := now }).homing with
    | false => rfl
    | true =>
      have h2 : a.homing = true := advance_homing S { a with chkTime := now } hb
      rw [h] at h2
      exact absurd h2 (by decide)
  rw [update_of_not_homing S now pinLevel a h]
  split_ifs
  · exact hadv
  · exact hadv

/-- The advance of `update()` on an actuator that is not moving: the call on the step
generator and nothing else. -/
theorem advance_idle (S : StepGen G) (a : Actuator G) (h : a.moving = false) :
    advance S a
      = issue S (if a.accelerationEnabled then .run else .runSpeedToPosition) a := by
  have hm : ∀ c, (issue S c a).moving = false := fun _ => h
  simp only [advance, hm]
  cases a.accelerationEnabled <;> simp

/-- C19: `update()` never starts a motion: for every state and every step generator,
switch, clock and encoder reading, if `moving = false` before `update()` then
`moving = false` after it, and if `homing = false` before then `homing = false` after;
and when both are false on entry, `update()` does not run the encoder check:
`reqEncoderCount`, `lastTime` and `timeInterval` are unchanged and the only calls issued
are the advance and, at distance-to-go `0`, the disabling of the outputs, so no stop. -/
theorem update_never_starts (S : StepGen G) (now : ℕ) (pinLevel : Bool) (a : Actuator G) :
    (a.moving = false → (update S now pinLevel a).moving = false)
    ∧ (a.homing = false → (update S now pinLevel a).homing = false)
    ∧ (a.moving = false → a.homing = false →
        (update S now pinLevel a).reqEncoderCount = a.reqEncoderCount
        ∧ (update S now pinLevel a).lastTime = a.lastTime
        ∧ (update S now pinLevel a).timeInterval = a.timeInterval
        ∧ calls (update S now pinLevel a)
            = calls a ++ (if a.accelerationEnabled then StepperCall.run
                else StepperCall.runSpeedToPosition) ::
              (if S.distanceToGo (S.exec (if a.accelerationEnabled then .run
                  else .runSpeedToPosition) a.stepper) = 0
                then [StepperCall.disableOutputs] else [])
        ∧ StepperCall.stop ∉ (calls (update S now pinLevel a)).drop (calls a).length) := by
  refine ⟨update_moving_false S now pinLevel a, update_homing_false S now pinLevel a, ?_⟩
  intro hm hh
  have hadv := advance_idle S { a with chkTime := now } hm
  have hcalls : calls (update S now pinLevel a)
      = calls a ++ (if a.accelerationEnabled then StepperCall.run
          else StepperCall.runSpeedToPosition) ::
        (if S.distanceToGo (S.exec (if a.accelerationEnabled then .run
            else .runSpeedToPosition) a.stepper) = 0
          then [StepperCall.disableOutputs] else []) := by
    rw [update_of_not_homing S now pinLevel a hh, hadv]
    simp only [distanceToGo, issue, calls]
    split_ifs <;> simp
  refine ⟨?_, ?_, ?_, hcalls, ?_⟩
  · rw [update_of_not_homing S now pinLevel a hh, hadv]
    split_ifs <;> rfl
  · rw [update_of_not_homing S now pinLevel a hh, hadv]
    split_ifs <;> rfl
  · rw [update_of_not_homing S now pinLevel a hh, hadv]
    split_ifs <;> rfl
  · rw [hcalls, List.drop_left]
    cases a.accelerationEnabled <;> simp

/-! ### C20: the stop forced by the encoder check -/

/-- In constant-speed mode `checkEncoder()` is `stop()` after the count, when the interval
has elapsed and the encoder trails by more than 3. -/
theorem checkEncoder_forced (S : StepGen G) (a : Actuator G)
    (hacc : a.accelerationEnabled = false)
    (h : ulongSub a.chkTime a.lastTime > a.timeInterval)
    (hn : a.encoderCount - (a.reqEncoderCount + 1) < -3) :
    checkEncoder S a
      = stop S { a with lastTime := a.chkTime, reqEncoderCount := a.reqEncoderCount + 1 } := by
  have hs : ∀ b : Actuator G, b.accelerationEnabled = false →
      (stop S b).accelerationEnabled = false := by
    intro b hb
    rw [(stop_accelerating S b).2]; exact hb
  have hs2 := hs { a with lastTime := a.chkTime, reqEncoderCount := a.reqEncoderCount + 1 } hacc
  simp only [checkEncoder, if_pos h, if_pos hn, hs2, Bool.false_and, Bool.false_eq_true,
    if_false]

/-- C20: in constant-speed normal motion (`accelerationEnabled = false`, `homing = false`,
`moving = true`), when the encoder check inside `update()` forces `stop()` (more than
`timeInterval` elapsed and the incremented `reqEncoderCount` more than 3 ahead of the
encoder counter), that same `update()` issues the advance, the stop, the zero-length move
and the disabling of the outputs, and returns with `moving = false`; for a step generator
whose zero-length move leaves no distance to go and whose stop, move and output commands
do not step, `distanceToGo() == 0` and `currentPosition()` is the position reached by
this tick's advance. -/
theorem update_forced_stop (S : StepGen G) (now : ℕ) (pinLevel : Bool) (a : Actuator G)
    (haccel : a.accelerationEnabled = false) (hhoming : a.homing = false)
    (hmoving : a.moving = true)
    (hfired : ulongSub now a.lastTime > a.timeInterval)
    (htrails : (a.reqEncoderCount + 1) - a.encoderCount > 3)
    (hzero : ∀ g, S.distanceToGo (S.exec (.move 0) g) = 0)
    (hstop : ∀ g, S.currentPosition (S.exec .stop g) = S.currentPosition g)
    (hmove : ∀ g, S.currentPosition (S.exec (.move 0) g) = S.currentPosition g)
    (hout : ∀ g, S.currentPosition (S.exec .disableOutputs g) = S.currentPosition g
      ∧ S.distanceToGo (S.exec .disableOutputs g) = S.distanceToGo g) :
    (update S now pinLevel a).moving = false
    ∧ (update S now pinLevel a).homing = false
    ∧ distanceToGo S (update S now pinLevel a) = 0
    ∧ calls (update S now pinLevel a)
        = calls a ++ [StepperCall.runSpeedToPosition, StepperCall.stop, StepperCall.move 0,
            StepperCall.disableOutputs]
    ∧ currentPosition S (update S now pinLevel a)
        = S.currentPosition (S.exec .runSpeedToPosition a.stepper) := by
  have hadv := advance_constant S { a with chkTime := now } haccel hmoving
  generalize hb0 : issue S StepperCall.runSpeedToPosition { a with chkTime := now } = b0
    at hadv
  have e1 : b0.accelerationEnabled = false := by rw [← hb0]; exact haccel
  have e2 : ulongSub b0.chkTime b0.lastTime > b0.timeInterval := by rw [← hb0]; exact hfired
  have e3 : b0.encoderCount - (b0.reqEncoderCount + 1) < -3 := by
    rw [← hb0]
    show a.encoderCount - (a.reqEncoderCount + 1) < -3
    omega
  have e4 : b0.stepper = S.exec .runSpeedToPosition a.stepper := by rw [← hb0]; rfl
  have e5 : calls b0 = calls a ++ [StepperCall.runSpeedToPosition] := by
    rw [← hb0]; simp [issue, calls]
  rw [checkEncoder_forced S b0 e1 e2 e3] at hadv
  generalize hb1 :
    ({ b0 with lastTime := b0.chkTime, reqEncoderCount := b0.reqEncoderCount + 1 } : Actuator G)
      = b1 at hadv
  have f1 : b1.accelerationEnabled = false := by rw [← hb1]; exact e1
  have f2 : b1.stepper = S.exec .runSpeedToPosition a.stepper := by rw [← hb1]; exact e4
  have f3 : calls b1 = calls a ++ [StepperCall.runSpeedToPosition] := by
    rw [← hb1]; exact e5
  have g1 : (stop S b1).stepper
      = S.exec (.move 0) (S.exec .stop (S.exec .runSpeedToPosition a.stepper)) := by
    rw [stop_stepper, f1, f2]; simp
  have g2 : calls (stop S b1)
      = calls a ++ [StepperCall.runSpeedToPosition, StepperCall.stop, StepperCall.move 0] := by
    rw [stop_calls, f1, f3]; simp
  have g3 : distanceToGo S (stop S b1) = 0 := by
    simp only [distanceToGo, g1, hzero]
  rw [update_of_not_homing S now pinLevel a hhoming, hadv, if_pos g3]
  refine ⟨rfl, stop_homing S b1, ?_, ?_, ?_⟩
  · show S.distanceToGo (S.exec .disableOutputs (stop S b1).stepper) = 0
    rw [(hout _).2, g1, hzero]
  · show calls (issue S .disableOutputs { stop S b1 with moving := false }) = _
    have : calls (issue S .disableOutputs { stop S b1 with moving := false })
        = calls (stop S b1) ++ [StepperCall.disableOutputs] := by simp [issue, calls]
    rw [this, g2]; simp
  · show S.currentPosition (S.exec .disableOutputs (stop S b1).stepper) = _
    rw [(hout _).1, g1, hmove, hstop]

/-- C20 (witness): the reference actuator in its long constant-speed move with three
intervals counted and the encoder counter at `0`: the update at clock value `1444` ends
the motion at the position reached by its advance. -/
theorem update_forced_stop_witness :
    (update refStepGen 1444 false movingStalled).moving = false
    ∧ distanceToGo refStepGen (update refStepGen 1444 false movingStalled) = 0
    ∧ currentPosition refStepGen (update refStepGen 1444 false movingStalled)
        = refStepGen.currentPosition
            (refStepGen.exec .runSpeedToPosition movingStalled.stepper) :=
  have h := update_forced_stop refStepGen 1444 false movingStalled rfl rfl rfl
    (by decide) (by decide) (fun g => by simp [refStepGen, refExec]) (fun _ => rfl) (fun _ => rfl)
    (fun _ => ⟨rfl, rfl⟩)
  ⟨h.1, h.2.2.1, h.2.2.2.2⟩

end LinearAccelStepperActuator
